import Mathlib

/-!
Shallow embedding of `bin/build.py` (lago-images): the spec-file parsing and
validation model, the two repo-metadata generators, and the repo-generation
orchestration, together with theorems settling the frozen claims about them.
-/

set_option autoImplicit false

/-- Strings are modelled as lists of characters (Python 2 byte strings). -/
abbrev Str := List Char

/-- Literal helper turning a Lean string literal into the `Str` model. -/
def str (s : String) : Str := s.data

/-- Python 2 regex `\w` on a plain (non-unicode) string: `[a-zA-Z0-9_]`. -/
def isWordChar (c : Char) : Bool :=
  (('a' ≤ c && c ≤ 'z') || ('A' ≤ c && c ≤ 'Z') || ('0' ≤ c && c ≤ '9') || c == '_')

/-- Python 2 regex `\s` on a plain string: `[ \t\n\r\f\v]`. -/
def isSpaceChar (c : Char) : Bool :=
  c == ' ' || c == '\t' || c == '\n' || c == '\r' || c == '\x0b' || c == '\x0c'

/--
Model of `Spec.prop_regex.match` applied to one line of the spec file
(the line is given without its trailing newline).  The regex is
`^#(?P<prop_key>\w+)\s*=\s*(?P<prop_value>.*)\s*$`: a hash mark, a non-empty
run of word characters (the key, taken greedily), optional whitespace, an
equals sign, optional whitespace, and the rest of the line as the value
(`.*` is greedy, so trailing whitespace stays inside the value).
Returns `some (key, value)` on a match and `none` otherwise.
-/
def matchPropLine (line : Str) : Option (Str × Str) :=
  match line with
  | [] => none
  | c :: rest =>
    if c = '#' then
      let key := rest.takeWhile isWordChar
      if key = [] then none
      else
        match (rest.dropWhile isWordChar).dropWhile isSpaceChar with
        | '=' :: r2 => some (key, r2.dropWhile isSpaceChar)
        | _ => none
    else none

/-- Association-list insert with Python-dict semantics: replace in place when
the key exists, append otherwise. -/
def insertAssoc {κ β : Type} [DecidableEq κ] : List (κ × β) → κ → β → List (κ × β)
  | [], k, v => [(k, v)]
  | (k', v') :: ps, k, v =>
    if k' = k then (k', v) :: ps else (k', v') :: insertAssoc ps k v

/-- First-match association-list lookup (Python dict indexing). -/
def lookupAssoc {κ β : Type} [DecidableEq κ] : List (κ × β) → κ → Option β
  | [], _ => none
  | (k', v) :: ps, k => if k' = k then some v else lookupAssoc ps k

/-- One step of a dictionary-building loop: when `g x` yields a key/value
pair, insert it; otherwise leave the dictionary unchanged. -/
def insertStep {κ β γ : Type} [DecidableEq κ] (g : γ → Option (κ × β))
    (ps : List (κ × β)) (x : γ) : List (κ × β) :=
  match g x with
  | some kv => insertAssoc ps kv.1 kv.2
  | none => ps

/-- The property-collection loop of `Spec.from_spec_file`: fold over all lines
of the file, adding every line that matches the property regex to the mapping
and ignoring every other line. -/
def parseProps (lines : List Str) : List (Str × Str) :=
  lines.foldl (insertStep matchPropLine) []

/-- A file path, modelled as a (directory, base name) pair; `os.path.basename`
is the second component and `os.path.dirname` the first. -/
abbrev FPath := Str × Str

/-- `os.path.join` rendering of an `FPath` as a single string. -/
def pathStr (p : FPath) : Str := p.1 ++ '/' :: p.2

/-- The parsed spec: the property mapping and the originating spec file
(`commands_file`), as in `Spec.__init__`. -/
structure Spec where
  props : List (Str × Str)
  commands_file : FPath
deriving Repr, DecidableEq

/-- The data carried by the exception raised in `Spec.verify`:
`'Malformed spec file %s, missing props %s' % (self.commands_file,
self.required_props)` — the spec path and the property set interpolated into
the message (which is `self.required_props` in the source). -/
structure MalformedSpecError where
  spec_file : FPath
  named_props : List Str
deriving Repr, DecidableEq

/-- Python set union, as a duplicate-free-preserving list operation; only
membership matters. -/
def setUnion (a b : List Str) : List Str := a ++ b.filter (fun x => ¬ a.contains x)

/-- `Spec.required_props = set(('name',))`. -/
def specRequiredProps : List Str := [str "name"]

/-- `LagoSpec.required_props = Spec.required_props | {'base', 'name', 'distro'}`. -/
def lagoRequiredProps : List Str :=
  setUnion specRequiredProps [str "base", str "name", str "distro"]

/-- `VirtBuilderSpec.required_props = Spec.required_props | {'base', 'osinfo',
'arch', 'expand'}`. -/
def virtBuilderRequiredProps : List Str :=
  setUnion specRequiredProps [str "base", str "osinfo", str "arch", str "expand"]

/-- `AllSpec.required_props = LagoSpec.required_props |
VirtBuilderSpec.required_props`. -/
def allRequiredProps : List Str :=
  setUnion lagoRequiredProps virtBuilderRequiredProps

/-- The keys of the property mapping (`self.props.keys()`). -/
def specKeys (sp : Spec) : List Str := sp.props.map Prod.fst

/-- `set(self.required_props) - set(self.props.keys())` in `Spec.verify`. -/
def missingProps (required : List Str) (sp : Spec) : List Str :=
  required.filter (fun k => decide (k ∉ specKeys sp))

/-- `Spec.verify`: raise when any required property is missing.  Note the
message interpolates `self.required_props`, not the computed `missing_props`. -/
def specVerify (required : List Str) (sp : Spec) : Except MalformedSpecError Unit :=
  if missingProps required sp = [] then .ok ()
  else .error ⟨sp.commands_file, required⟩

/-- `Spec.from_spec_file`: collect the properties of every matching line of
the file, build the spec, verify it and return it. -/
def from_spec_file (required : List Str) (p : FPath) (lines : List Str) :
    Except MalformedSpecError Spec :=
  let new_spec : Spec := ⟨parseProps lines, p⟩
  match specVerify required new_spec with
  | .ok _ => .ok new_spec
  | .error e => .error e

/-- `file_name.endswith('.xz')`. -/
def endsWithXz (f : Str) : Bool := (str ".xz").isSuffixOf f

/-- `file_name.rsplit('.', 1)[0]`: everything before the last dot, or the whole
string when there is no dot. -/
def rsplitOnceStem (f : Str) : Str :=
  if f.contains '.' then ((f.reverse.dropWhile (fun c => c ≠ '.')).drop 1).reverse
  else f

/-- `s.rsplit('.')[0]` (no maxsplit): the segment before the first dot, or the
whole string when there is no dot. -/
def rsplitAllHead (f : Str) : Str := f.takeWhile (fun c => c ≠ '.')

/-- One `templates[name]` entry of the lago repo metadata:
`{"versions": {"latest": {"source": .., "handle": .., "timestamp": ..}}}`. -/
structure LagoTplVersion where
  source : Str
  handle : Str
  timestamp : Nat
deriving Repr, DecidableEq

/-- The lago aggregate repo metadata JSON object: `name`, the `templates`
mapping, and `sources = {repo_name: {"args": {"baseurl": url}, "type":
"http"}}` (of which only the url varies, kept as `sources_baseurl`). -/
structure LagoRepoMetadata where
  name : Str
  templates : List (Str × LagoTplVersion)
  sources_baseurl : Str
deriving Repr, DecidableEq

/-- `generate_lago_repo_metadata`, as a function of the directory scan result
(`os.walk(repo_dir).next()[2]`), the repo name, the url, and the per-file
modification times: walk the file names in order, and for each one ending in
`.xz` add a `templates` entry keyed by the name with the last extension
stripped; then write the object (returned here) to `repo.metadata`. -/
def generate_lago_repo_metadata (files : List Str) (repo_name url : Str)
    (mtime : Str → Nat) : LagoRepoMetadata :=
  let templates := files.foldl
    (fun ts file_name =>
      if endsWithXz file_name then
        insertAssoc ts (rsplitOnceStem file_name)
          ⟨repo_name, rsplitOnceStem file_name, mtime file_name⟩
      else ts)
    []
  ⟨repo_name, templates, url⟩

/-- A `datetime.datetime` value at second granularity, as produced by
`datetime.now()`. -/
structure PyDateTime where
  year : Nat
  month : Nat
  day : Nat
  hour : Nat
  minute : Nat
  second : Nat
deriving Repr, DecidableEq

/-- Field ranges of a real `datetime` value (years in `datetime` are
1..9999; we only need the bounds of the lower fields). -/
def PyDateTime.Valid (t : PyDateTime) : Prop :=
  1 ≤ t.month ∧ t.month ≤ 12 ∧ 1 ≤ t.day ∧ t.day ≤ 31 ∧
    t.hour ≤ 23 ∧ t.minute ≤ 59 ∧ t.second ≤ 59

instance (t : PyDateTime) : Decidable t.Valid := by
  unfold PyDateTime.Valid
  exact inferInstance

/-- Wall-clock order of two instants at second granularity: lexicographic on
(year, month, day, hour, minute, second). -/
def PyDateTime.Earlier (a b : PyDateTime) : Prop :=
  a.year < b.year ∨ (a.year = b.year ∧
    (a.month < b.month ∨ (a.month = b.month ∧
      (a.day < b.day ∨ (a.day = b.day ∧
        (a.hour < b.hour ∨ (a.hour = b.hour ∧
          (a.minute < b.minute ∨ (a.minute = b.minute ∧
            a.second < b.second)))))))))

instance (a b : PyDateTime) : Decidable (a.Earlier b) := by
  unfold PyDateTime.Earlier
  exact inferInstance

/-- `int(t.strftime('%Y%m%d%H%M%S'))`: the wall-clock time rendered as the
concatenated zero-padded digit groups of year, month, day, hour, minute and
second, read back as an integer.  For years ≥ 1000 every group below the year
is exactly two digits, so the integer equals this polynomial in the fields. -/
def revision (t : PyDateTime) : Nat :=
  ((((t.year * 100 + t.month) * 100 + t.day) * 100 + t.hour) * 100 + t.minute)
    * 100 + t.second

/-- Decimal rendering of a number, as `'%s' % n` / `'%d' % n` produce it. -/
def natStr (n : Nat) : Str := (toString n).data

/-- Results of the operating-system and file-system queries the script
performs; the script only ever reads each path in one file-system state, so a
static valuation is a faithful model of one run. -/
structure Env where
  fileLines : FPath → List Str
  fileSize : FPath → Nat
  sha1 : FPath → Str
  sha512 : FPath → Str
  mtime : FPath → Nat
  listDir : Str → List Str
  exitCode : List Str → Nat
  pathExists : Str → Bool
  now : PyDateTime

/-- `image_path_from_spec`: the image lives in `dst_dir` under the spec file's
base name, with `.xz` appended for the compressed variant. -/
def image_path_from_spec (dst_dir : Str) (sp : Spec) (compressed : Bool) : FPath :=
  (dst_dir, if compressed then sp.commands_file.2 ++ str ".xz" else sp.commands_file.2)

/-- `UncompressedTplInfo`: size and the two checksums of the image before
compression. -/
structure UncompressedTplInfo where
  size : Nat
  checksum_sha1 : Str
  checksum_sha512 : Str
deriving Repr, DecidableEq

/-- The `metadata_lines` list built in `get_virt_builder_image_metadata`: the
synthesized header `[lago-<base name up to the first dot>]`, the `file=`,
`format=`, `compressed_size=`, `size=`, `uncompressed_checksum=`, `checksum=`
and `revision=` lines, followed by one `key=value` line per spec property. -/
def get_virt_builder_metadata_lines (env : Env) (sp : Spec) (image_path : FPath)
    (info : UncompressedTplInfo) : List Str :=
  [ str "[lago-" ++ rsplitAllHead image_path.2 ++ str "]"
  , str "file=" ++ image_path.2
  , str "format=qcow2"
  , str "compressed_size=" ++ natStr (env.fileSize image_path)
  , str "size=" ++ natStr info.size
  , str "uncompressed_checksum=" ++ info.checksum_sha512
  , str "checksum=" ++ env.sha512 image_path
  , str "revision=" ++ natStr (revision env.now)
  ] ++ sp.props.map (fun kv => kv.1 ++ '=' :: kv.2)

/-- `get_virt_builder_image_metadata` returns `'\n'.join(metadata_lines)`. -/
def get_virt_builder_image_metadata (env : Env) (sp : Spec) (image_path : FPath)
    (info : UncompressedTplInfo) : Str :=
  List.intercalate (str "\n") (get_virt_builder_metadata_lines env sp image_path info)

/-- Observable file-system side effects of one run. -/
inductive Ev where
  | mkdir (dir : Str)
  | readFile (p : FPath)
  | exec (command : List Str)
  | createFile (p : FPath)
  | deleteFile (p : FPath)
deriving Repr, DecidableEq

/-- Errors aborting a run: the malformed-spec exception, the `RuntimeError`
raised by `call` (carrying the failed command), and a Python `KeyError` from a
missing dictionary key. -/
inductive RunErr where
  | malformed (e : MalformedSpecError)
  | toolFailed (command : List Str)
  | keyError (key : Str)
deriving Repr, DecidableEq

/-- Map the error of an `Except`. -/
def mapErr {ε ε' α : Type} (f : ε → ε') : Except ε α → Except ε' α
  | .ok a => .ok a
  | .error e => .error (f e)

/-- Sequencing of traced fallible steps: run the first step; on error stop with
its trace, otherwise run the continuation and append its trace. -/
def evBind {α β : Type} (x : List Ev × Except RunErr α)
    (f : α → List Ev × Except RunErr β) : List Ev × Except RunErr β :=
  match x with
  | (tr, .error e) => (tr, .error e)
  | (tr, .ok a) =>
    match f a with
    | (tr2, r) => (tr ++ tr2, r)

/-- `call`: run the command through `subprocess.call` and raise `RuntimeError`
on a non-zero exit status. -/
def call (env : Env) (command : List Str) : List Ev × Except RunErr Unit :=
  ([Ev.exec command],
    if env.exitCode command = 0 then .ok () else .error (.toolFailed command))

/-- The `virt-builder` command line assembled in `build_disk_image`. -/
def build_disk_image_command (commands_file dst_image : FPath) (root_pass : Str)
    (with_update : Bool) (base_image : Str) : List Str :=
  [ str "virt-builder"
  , str "--commands-from-file=" ++ pathStr commands_file
  , str "--output=" ++ pathStr dst_image
  , str "--root-password=password:" ++ root_pass
  , str "--format=qcow2"
  ] ++ (if with_update then [str "--update"] else []) ++ [base_image]

/-- `build_disk_image`: invoke `virt-builder`; on success the image file exists
at `dst_image`. -/
def build_disk_image (env : Env) (commands_file dst_image : FPath)
    (base_image : Str) (root_pass : Str) (with_update : Bool) :
    List Ev × Except RunErr Unit :=
  evBind (call env (build_disk_image_command commands_file dst_image root_pass
      with_update base_image))
    (fun _ => ([Ev.createFile dst_image], .ok ()))

/-- The `virt-sysprep` command line of `prepare_disk_template`. -/
def sysprep_command (disk_image : FPath) : List Str :=
  [str "virt-sysprep", str "--format=qcow2", str "--add=" ++ pathStr disk_image]

/-- The `virt-sparsify` command line of `prepare_disk_template`. -/
def sparsify_command (disk_image : FPath) : List Str :=
  [str "virt-sparsify", str "--format=qcow2", str "--in-place", pathStr disk_image]

/-- The `xz` command line of `prepare_disk_template` (`--keep`, so the original
file is preserved; the compressed sibling `<image>.xz` is created). -/
def xz_command (disk_image : FPath) : List Str :=
  [ str "xz", str "--compress", str "--keep", str "--threads=0", str "--best"
  , str "--force", str "--verbose", str "--block-size=16777216"
  , pathStr disk_image ]

/-- `prepare_disk_template`: sysprep and sparsify the image in place, take its
size, compress it with `xz --keep` (creating the `.xz` sibling), and return the
uncompressed size. -/
def prepare_disk_template (env : Env) (disk_image : FPath) :
    List Ev × Except RunErr Nat :=
  evBind (call env (sysprep_command disk_image)) (fun _ =>
  evBind (call env (sparsify_command disk_image)) (fun _ =>
  evBind (call env (xz_command disk_image)) (fun _ =>
    ([Ev.createFile (disk_image.1, disk_image.2 ++ str ".xz")],
      .ok (env.fileSize disk_image)))))

/-- `get_hash`: read the file and produce its digest (the digest value comes
from the environment). -/
def get_hash_traced (digest : FPath → Str) (file_path : FPath) :
    List Ev × Except RunErr Str :=
  ([Ev.readFile file_path], .ok (digest file_path))

/-- `build_template`: build the disk image, prepare it (clean, sparsify,
compress), capture the uncompressed size and both checksums, then delete the
uncompressed image and return the captured facts. -/
def build_template (env : Env) (commands_file dst_template : FPath)
    (base_image : Str) (root_pass : Str) (with_update : Bool) :
    List Ev × Except RunErr UncompressedTplInfo :=
  evBind (build_disk_image env commands_file dst_template base_image root_pass
      with_update) (fun _ =>
  evBind (prepare_disk_template env dst_template) (fun uncompressed_size =>
  evBind (get_hash_traced env.sha1 dst_template) (fun s1 =>
  evBind (get_hash_traced env.sha512 dst_template) (fun s512 =>
    ([Ev.deleteFile dst_template], .ok ⟨uncompressed_size, s1, s512⟩)))))

/-- `generate_image`: build the template at the uncompressed path (named after
the spec file) and return the compressed path together with the uncompressed
facts.  `spec.props['base']` raises `KeyError` when absent. -/
def generate_image (env : Env) (sp : Spec) (dst_dir : Str) (with_update : Bool) :
    List Ev × Except RunErr (FPath × UncompressedTplInfo) :=
  let dst_image_path := image_path_from_spec dst_dir sp false
  match lookupAssoc sp.props (str "base") with
  | none => ([], .error (.keyError (str "base")))
  | some base =>
    evBind (build_template env sp.commands_file dst_image_path base
        (str "123456") with_update)
      (fun info =>
        ([], .ok ((dst_image_path.1, dst_image_path.2 ++ str ".xz"), info)))

/-- `generate_lago_image_metadata`: write the two per-image sidecar files
(`<name>.metadata` with the props JSON, `<name>.hash` with the SHA-1) next to
the image. -/
def generate_lago_image_metadata (sp : Spec) (image_path : FPath) : List Ev :=
  [ Ev.createFile (image_path.1, sp.commands_file.2 ++ str ".metadata")
  , Ev.createFile (image_path.1, sp.commands_file.2 ++ str ".hash") ]

/-- The repo format selected by `--repo-format`. -/
inductive RepoFormat where
  | lago
  | virt_builder
  | all
deriving Repr, DecidableEq

/-- The spec class (validation policy) chosen for a format in `generate_repo`. -/
def required_props_of : RepoFormat → List Str
  | .lago => lagoRequiredProps
  | .virt_builder => virtBuilderRequiredProps
  | .all => allRequiredProps

/-- `repo_format in ['lago', 'all']`. -/
def includesLago : RepoFormat → Bool
  | .lago => true
  | .all => true
  | .virt_builder => false

/-- `repo_format in ['virt-builder', 'all']`. -/
def includesVirtBuilder : RepoFormat → Bool
  | .virt_builder => true
  | .all => true
  | .lago => false

/-- One iteration of the main loop of `generate_repo`: load and validate the
spec, build its image, and (for lago-including formats) write the per-image
sidecars. -/
def runSpec (env : Env) (fmt : RepoFormat) (repo_dir : Str) (with_update : Bool)
    (p : FPath) : List Ev × Except RunErr (FPath × UncompressedTplInfo) :=
  evBind ([Ev.readFile p],
      mapErr RunErr.malformed (from_spec_file (required_props_of fmt) p (env.fileLines p)))
    (fun sp =>
  evBind (generate_image env sp repo_dir with_update) (fun res =>
    ((if includesLago fmt then
        generate_lago_image_metadata sp (image_path_from_spec repo_dir sp false)
      else []),
      .ok res)))

/-- The main loop of `generate_repo` over all spec paths, collecting the
per-image `(compressed path, uncompressed facts)` pairs in order; the first
failure aborts the loop. -/
def runSpecs (env : Env) (fmt : RepoFormat) (repo_dir : Str) (with_update : Bool) :
    List FPath → List Ev × Except RunErr (List (FPath × UncompressedTplInfo))
  | [] => ([], .ok [])
  | p :: ps =>
    evBind (runSpec env fmt repo_dir with_update p) (fun r =>
    evBind (runSpecs env fmt repo_dir with_update ps) (fun rest =>
      ([], .ok (r :: rest))))

/-- One iteration of `generate_virt_builder_repo_metadata`: re-parse the spec
as a `VirtBuilderSpec`, look its compressed image up in `uncompressed_infos`
(`KeyError` when absent), and produce the image's metadata block (the
`checksum=` line reads the compressed file). -/
def virtBuilderBlock (env : Env) (repo_dir : Str)
    (uncompressed_infos : List (FPath × UncompressedTplInfo)) (p : FPath) :
    List Ev × Except RunErr Str :=
  evBind ([Ev.readFile p],
      mapErr RunErr.malformed (from_spec_file virtBuilderRequiredProps p (env.fileLines p)))
    (fun sp =>
      match lookupAssoc uncompressed_infos (image_path_from_spec repo_dir sp true) with
      | none =>
        ([], .error (.keyError (pathStr (image_path_from_spec repo_dir sp true))))
      | some info =>
        ([Ev.readFile (image_path_from_spec repo_dir sp true)],
          .ok (get_virt_builder_image_metadata env sp
            (image_path_from_spec repo_dir sp true) info)))

/-- All metadata blocks of `generate_virt_builder_repo_metadata`, in spec
order. -/
def virtBuilderBlocks (env : Env) (repo_dir : Str)
    (uncompressed_infos : List (FPath × UncompressedTplInfo)) :
    List FPath → List Ev × Except RunErr (List Str)
  | [] => ([], .ok [])
  | p :: ps =>
    evBind (virtBuilderBlock env repo_dir uncompressed_infos p) (fun b =>
    evBind (virtBuilderBlocks env repo_dir uncompressed_infos ps) (fun bs =>
      ([], .ok (b :: bs))))

/-- `generate_virt_builder_repo_metadata`: build every block, then write
`'\n\n'.join(specs_metadata) + '\n'` to the `index` file (the written content
is returned). -/
def generate_virt_builder_repo_metadata (env : Env) (repo_dir : Str)
    (specs : List FPath) (uncompressed_infos : List (FPath × UncompressedTplInfo)) :
    List Ev × Except RunErr Str :=
  evBind (virtBuilderBlocks env repo_dir uncompressed_infos specs) (fun blocks =>
    ([Ev.createFile (repo_dir, str "index")],
      .ok (List.intercalate (str "\n\n") blocks ++ str "\n")))

/-- `generate_repo`: create the output directory if missing, run the main loop
over all specs, and generate the aggregate metadata of the selected formats.
The trace records every observable file-system effect in order. -/
def generate_repo (env : Env) (specs : List FPath) (repo_dir : Str)
    (fmt : RepoFormat) (with_update : Bool) : List Ev × Except RunErr Unit :=
  let pre : List Ev := if env.pathExists repo_dir then [] else [Ev.mkdir repo_dir]
  match runSpecs env fmt repo_dir with_update specs with
  | (tr, .error e) => (pre ++ tr, .error e)
  | (tr, .ok results) =>
    let uncompressed_infos :=
      results.foldl (fun d r => insertAssoc d r.1 r.2) []
    let lagoTr : List Ev :=
      if includesLago fmt then [Ev.createFile (repo_dir, str "repo.metadata")]
      else []
    if includesVirtBuilder fmt then
      match generate_virt_builder_repo_metadata env repo_dir specs
          uncompressed_infos with
      | (vtr, .error e) => (pre ++ tr ++ lagoTr ++ vtr, .error e)
      | (vtr, .ok _) => (pre ++ tr ++ lagoTr ++ vtr, .ok ())
    else (pre ++ tr ++ lagoTr, .ok ())

deriving instance DecidableEq for Except

/-- The spec file used to exhibit the `Spec.verify` message bug: it has
`name` and `base` but no `distro`. -/
def specFileC1 : List Str :=
  [str "#name=foo", str "#base=fedora-30", str "yum install -y vim"]

/-- The path of that spec file. -/
def specPathC1 : FPath := (str "image-specs", str "fedora30")

/--
C1: loading a lago-format spec that has `name` and `base` but lacks `distro`
does fail with the malformed-spec error carrying the spec's source path, but
the property set interpolated into the message is `self.required_props` — the
full required set `{name, base, distro}`, including properties that are
present — although the message text says "missing props" and the computed
missing set is exactly `{distro}`.  The code computes `missing_props` and then
formats `self.required_props`, contradicting its own message: the spec's
"naming the missing properties" is the clear intent and the code a slip.
-/
theorem C1_verify_names_required_props_not_missing :
    from_spec_file lagoRequiredProps specPathC1 specFileC1
        = .error ⟨specPathC1, lagoRequiredProps⟩
    ∧ missingProps lagoRequiredProps ⟨parseProps specFileC1, specPathC1⟩
        = [str "distro"]
    ∧ str "name" ∈ lagoRequiredProps
    ∧ str "name" ∈ specKeys ⟨parseProps specFileC1, specPathC1⟩ := by
  refine ⟨by decide, by decide, by decide, by decide⟩

/--
C6: the three validation policies require exactly the claimed property sets —
lago `{name, base, distro}`, virt-builder `{name, base, osinfo, arch, expand}`,
and "all" the union of both — and `verify` accepts a spec exactly when every
required property of the selected policy is among the spec's parsed
properties.
-/
theorem C6_validation_policies :
    (∀ k : Str, k ∈ lagoRequiredProps ↔
      (k = str "name" ∨ k = str "base" ∨ k = str "distro"))
    ∧ (∀ k : Str, k ∈ virtBuilderRequiredProps ↔
      (k = str "name" ∨ k = str "base" ∨ k = str "osinfo" ∨ k = str "arch" ∨
        k = str "expand"))
    ∧ (∀ k : Str, k ∈ allRequiredProps ↔
      (k ∈ lagoRequiredProps ∨ k ∈ virtBuilderRequiredProps))
    ∧ (∀ (required : List Str) (sp : Spec),
        specVerify required sp = .ok () ↔ ∀ k ∈ required, k ∈ specKeys sp) := by
  have hl : lagoRequiredProps = [str "name", str "base", str "distro"] := by decide
  have hv : virtBuilderRequiredProps =
      [str "name", str "base", str "osinfo", str "arch", str "expand"] := by decide
  have ha : allRequiredProps =
      [str "name", str "base", str "distro", str "osinfo", str "arch",
        str "expand"] := by decide
  refine ⟨?_, ?_, ?_, ?_⟩
  · intro k
    rw [hl]
    simp
  · intro k
    rw [hv]
    simp
  · intro k
    rw [ha, hl, hv]
    simp
    tauto
  · intro required sp
    by_cases hm : missingProps required sp = []
    · have hall : ∀ k ∈ required, k ∈ specKeys sp := by
        intro k hk
        have := List.filter_eq_nil_iff.mp hm k hk
        simpa using this
      simp only [specVerify, hm, if_pos]
      simpa using hall
    · have : ¬ ∀ k ∈ required, k ∈ specKeys sp := by
        intro hall
        apply hm
        apply List.filter_eq_nil_iff.mpr
        intro k hk
        simp [hall k hk]
      simp [specVerify, hm, this]

/--
C9: the revision number `int(now.strftime('%Y%m%d%H%M%S'))` is strictly
monotone in the wall-clock time: for any two valid instants where the first is
earlier than the second by at least one clock second (i.e. the
second-granularity timestamps differ), the revision of the first is strictly
smaller.
-/
theorem C9_revision_strictly_increasing (a b : PyDateTime)
    (ha : a.Valid) (hb : b.Valid) (hab : a.Earlier b) :
    revision a < revision b := by
  obtain ⟨ham1, ham2, had1, had2, hah, hami, has⟩ := ha
  obtain ⟨hbm1, hbm2, hbd1, hbd2, hbh, hbmi, hbs⟩ := hb
  unfold revision
  rcases hab with h | ⟨hy, h | ⟨hmo, h | ⟨hd, h | ⟨hh, h | ⟨hmi, h⟩⟩⟩⟩⟩ <;> omega

/-- Witness for C9 at two concrete instants one second apart. -/
theorem C9_revision_strictly_increasing_witness :
    revision ⟨2026, 10, 12, 23, 59, 58⟩ < revision ⟨2026, 10, 12, 23, 59, 59⟩ :=
  C9_revision_strictly_increasing ⟨2026, 10, 12, 23, 59, 58⟩
    ⟨2026, 10, 12, 23, 59, 59⟩ (by decide) (by decide)
    (by decide)

/--
C10: the section header of a virt-builder metadata block is `[lago-` followed
by the image file name truncated at its first dot, while the `file=` line
carries the full compressed file name; for a base name containing a dot
(`fedora-30.1`, compressed file `fedora-30.1.xz`) the header name
`fedora-30` differs from the name with only the compression extension
stripped (`fedora-30.1`), while for a dot-free base name (`fedora30`) the two
agree.
-/
theorem C10_header_truncates_at_first_dot :
    (∀ (env : Env) (sp : Spec) (image_path : FPath) (info : UncompressedTplInfo),
      (get_virt_builder_metadata_lines env sp image_path info).head? =
        some (str "[lago-" ++ rsplitAllHead image_path.2 ++ str "]")
      ∧ (get_virt_builder_metadata_lines env sp image_path info)[1]? =
        some (str "file=" ++ image_path.2))
    ∧ rsplitAllHead (str "fedora-30.1.xz") = str "fedora-30"
    ∧ rsplitOnceStem (str "fedora-30.1.xz") = str "fedora-30.1"
    ∧ rsplitAllHead (str "fedora-30.1.xz") ≠ rsplitOnceStem (str "fedora-30.1.xz")
    ∧ rsplitAllHead (str "fedora30.xz") = rsplitOnceStem (str "fedora30.xz") := by
  refine ⟨fun env sp image_path info => ⟨rfl, rfl⟩, by decide, by decide,
    by decide, by decide⟩

/-- A key is in an insert result exactly when it is the inserted key or was
already present. -/
theorem mem_keys_insertAssoc {κ β : Type} [DecidableEq κ]
    (ps : List (κ × β)) (k : κ) (v : β) (k' : κ) :
    k' ∈ (insertAssoc ps k v).map Prod.fst ↔ k' = k ∨ k' ∈ ps.map Prod.fst := by
  induction ps with
  | nil => simp [insertAssoc]
  | cons hd tl ih =>
    obtain ⟨hk, hv⟩ := hd
    by_cases h : hk = k
    · subst h
      simp [insertAssoc]
    · simp only [insertAssoc, if_neg h, List.map_cons, List.mem_cons, ih]
      tauto

/-- Key set of a fold inserting `g x` for every element with `g x = some _`:
a key is present exactly when it was in the accumulator or some element
produces it. -/
theorem mem_keys_foldl_insert {κ β γ : Type} [DecidableEq κ] (g : γ → Option (κ × β)) :
    ∀ (xs : List γ) (acc : List (κ × β)) (k : κ),
      (k ∈ (xs.foldl (insertStep g) acc).map Prod.fst)
        ↔ k ∈ acc.map Prod.fst ∨ ∃ x ∈ xs, ∃ v, g x = some (k, v)
  | [], acc, k => by simp
  | x :: xs, acc, k => by
    rcases hg : g x with _ | ⟨kv⟩
    · rw [List.foldl_cons, insertStep, hg]
      rw [mem_keys_foldl_insert g xs acc k]
      simp only [List.mem_cons]
      constructor
      · rintro (h | ⟨y, hy, v, hv⟩)
        · exact Or.inl h
        · exact Or.inr ⟨y, Or.inr hy, v, hv⟩
      · rintro (h | ⟨y, hy | hy, v, hv⟩)
        · exact Or.inl h
        · subst hy
          rw [hg] at hv
          cases hv
        · exact Or.inr ⟨y, hy, v, hv⟩
    · rw [List.foldl_cons, insertStep, hg]
      rw [mem_keys_foldl_insert g xs (insertAssoc acc kv.1 kv.2) k]
      rw [mem_keys_insertAssoc]
      simp only [List.mem_cons]
      constructor
      · rintro ((h | h) | h)
        · subst h
          exact Or.inr ⟨x, Or.inl rfl, kv.2, by rw [hg]⟩
        · exact Or.inl h
        · obtain ⟨y, hy, v, hv⟩ := h
          exact Or.inr ⟨y, Or.inr hy, v, hv⟩
      · rintro (h | ⟨y, hy | hy, v, hv⟩)
        · exact Or.inl (Or.inr h)
        · subst hy
          rw [hg] at hv
          injection hv with hv
          exact Or.inl (Or.inl (by rw [hv]))
        · exact Or.inr ⟨y, hy, v, hv⟩

/-- A fold inserting nothing (every element maps to `none`) returns the
accumulator. -/
theorem foldl_insert_no_match {κ β γ : Type} [DecidableEq κ] (g : γ → Option (κ × β)) :
    ∀ (xs : List γ) (acc : List (κ × β)), (∀ x ∈ xs, g x = none) →
      xs.foldl (insertStep g) acc = acc
  | [], acc, _ => rfl
  | x :: xs, acc, h => by
    rw [List.foldl_cons, insertStep, h x (by simp)]
    exact foldl_insert_no_match g xs acc (fun y hy => h y (by simp [hy]))

/-- Stripping the last extension of `k ++ ".xz"` gives back `k` (the suffix
`"xz"` holds no dot, so the last dot of `k ++ ".xz"` is the appended one). -/
theorem rsplitOnceStem_append_xz (k : Str) : rsplitOnceStem (k ++ str ".xz") = k := by
  have hc : (k ++ str ".xz").contains '.' = true := by
    have : '.' ∈ k ++ str ".xz" := List.mem_append_right k (by decide)
    simpa [List.elem_eq_mem] using this
  have hrev : (k ++ str ".xz").reverse = 'z' :: 'x' :: '.' :: k.reverse := by
    rw [List.reverse_append]
    rfl
  rw [rsplitOnceStem, if_pos hc, hrev]
  rw [List.dropWhile_cons_of_pos (by decide), List.dropWhile_cons_of_pos (by decide),
    List.dropWhile_cons_of_neg (by decide)]
  simp

/-- `k ++ ".xz"` ends with `.xz`. -/
theorem endsWithXz_append (k : Str) : endsWithXz (k ++ str ".xz") = true := by
  simp [endsWithXz]

/-- A file name ending in `.xz` is its last-extension stem plus `.xz`. -/
theorem xz_decomp (f : Str) (h : endsWithXz f = true) :
    f = rsplitOnceStem f ++ str ".xz" := by
  have hs : str ".xz" <:+ f := by simpa [endsWithXz] using h
  obtain ⟨t, ht⟩ := hs
  rw [← ht, rsplitOnceStem_append_xz]

/--
C2: the `templates` mapping of the lago aggregate repo metadata has as its key
set exactly the file names of the output-directory scan that end in the
compressed extension `.xz`, with that extension stripped — and when the scan
finds no compressed file at all the metadata object is still produced, with an
empty `templates` mapping.
-/
theorem C2_lago_repo_metadata_templates (files : List Str) (repo_name url : Str)
    (mtime : Str → Nat) :
    (∀ k : Str,
      k ∈ (generate_lago_repo_metadata files repo_name url mtime).templates.map Prod.fst
        ↔ (k ++ str ".xz") ∈ files)
    ∧ ((∀ f ∈ files, endsWithXz f = false) →
      (generate_lago_repo_metadata files repo_name url mtime).templates = []) := by
  have hstep :
      (fun (ts : List (Str × LagoTplVersion)) (file_name : Str) =>
        if endsWithXz file_name then
          insertAssoc ts (rsplitOnceStem file_name)
            ⟨repo_name, rsplitOnceStem file_name, mtime file_name⟩
        else ts)
      = insertStep (fun f => if endsWithXz f then
          some (rsplitOnceStem f,
            (⟨repo_name, rsplitOnceStem f, mtime f⟩ : LagoTplVersion))
        else none) := by
    funext ts file_name
    by_cases h : endsWithXz file_name <;> simp [insertStep, h]
  constructor
  · intro k
    show k ∈ (files.foldl _ []).map Prod.fst ↔ _
    rw [hstep, mem_keys_foldl_insert]
    simp only [List.map_nil, List.not_mem_nil, false_or]
    constructor
    · rintro ⟨f, hf, v, hv⟩
      by_cases h : endsWithXz f
      · simp only [if_pos h] at hv
        injection hv with hv
        have hk : rsplitOnceStem f = k := congrArg Prod.fst hv
        have := xz_decomp f h
        rw [← hk]
        rw [← this]
        exact hf
      · simp [if_neg h] at hv
    · intro hf
      refine ⟨k ++ str ".xz", hf, ⟨repo_name, rsplitOnceStem (k ++ str ".xz"),
        mtime (k ++ str ".xz")⟩, ?_⟩
      rw [if_pos (endsWithXz_append k), rsplitOnceStem_append_xz]
  · intro hnone
    show files.foldl _ [] = []
    rw [hstep]
    apply foldl_insert_no_match
    intro f hf
    simp [hnone f hf]

/-- Witness for C2 on a concrete scan result with one compressed file, and on
one with none. -/
theorem C2_lago_repo_metadata_templates_witness :
    (str "fedora30" ∈ (generate_lago_repo_metadata
        [str "fedora30.xz", str "repo.metadata"] (str "r") (str "u")
        (fun _ => 0)).templates.map Prod.fst)
    ∧ (generate_lago_repo_metadata [str "fedora30.metadata"] (str "r") (str "u")
        (fun _ => 0)).templates = [] :=
  ⟨((C2_lago_repo_metadata_templates [str "fedora30.xz", str "repo.metadata"]
      (str "r") (str "u") (fun _ => 0)).1 (str "fedora30")).mpr (by decide),
    (C2_lago_repo_metadata_templates [str "fedora30.metadata"] (str "r")
      (str "u") (fun _ => 0)).2 (by decide)⟩

/-- `takeWhile` over an append whose left part satisfies the predicate and
whose right part starts (if at all) with a failing element takes exactly the
left part. -/
theorem takeWhile_append_sat (p : Char → Bool) :
    ∀ (xs ys : List Char), (∀ x ∈ xs, p x = true) →
      (∀ c, ys.head? = some c → p c = false) →
      (xs ++ ys).takeWhile p = xs
  | [], [], _, _ => rfl
  | [], y :: ys, _, hy => by
    simp [List.takeWhile_cons, hy y rfl]
  | x :: xs, ys, hx, hy => by
    rw [List.cons_append, List.takeWhile_cons_of_pos (hx x (by simp)),
      takeWhile_append_sat p xs ys (fun z hz => hx z (by simp [hz])) hy]

/-- `dropWhile` over the same split drops exactly the left part. -/
theorem dropWhile_append_sat (p : Char → Bool) :
    ∀ (xs ys : List Char), (∀ x ∈ xs, p x = true) →
      (∀ c, ys.head? = some c → p c = false) →
      (xs ++ ys).dropWhile p = ys
  | [], [], _, _ => rfl
  | [], y :: ys, _, hy => by
    simp [List.dropWhile_cons, hy y rfl]
  | x :: xs, ys, hx, hy => by
    rw [List.cons_append, List.dropWhile_cons_of_pos (hx x (by simp)),
      dropWhile_append_sat p xs ys (fun z hz => hx z (by simp [hz])) hy]

/-- The regex classes `\s` and `\w` are disjoint. -/
theorem space_not_word (c : Char) (h : isSpaceChar c = true) : isWordChar c = false := by
  unfold isSpaceChar at h
  simp only [Bool.or_eq_true, beq_iff_eq] at h
  rcases h with ((((rfl | rfl) | rfl) | rfl) | rfl) | rfl <;> decide

/--
C5: the parser collects as properties exactly the lines matching the property
pattern — a key is present in the parsed mapping exactly when some line of the
file matches with that key; every non-matching line is ignored without
stopping the collection (a non-matching prefix of any length leaves the
result of the remaining lines unchanged); and a line matches the compiled
regex exactly when it decomposes as a hash mark, a non-empty identifier of
word characters, optional whitespace, an equals sign, optional whitespace, and
the remaining text as the value.
-/
theorem C5_property_lines_collected (lines cmds extra : List Str) (line : Str)
    (k : Str) (hcmds : ∀ l ∈ cmds, matchPropLine l = none) :
    (k ∈ (parseProps lines).map Prod.fst ↔
      ∃ l ∈ lines, ∃ v, matchPropLine l = some (k, v))
    ∧ parseProps (cmds ++ extra) = parseProps extra
    ∧ ((∃ kv, matchPropLine line = some kv) ↔
      ∃ key s1 s2 v, line = '#' :: (key ++ (s1 ++ '=' :: (s2 ++ v)))
        ∧ key ≠ [] ∧ (∀ c ∈ key, isWordChar c = true)
        ∧ (∀ c ∈ s1, isSpaceChar c = true) ∧ (∀ c ∈ s2, isSpaceChar c = true)) := by
  refine ⟨?_, ?_, ?_⟩
  · rw [parseProps, mem_keys_foldl_insert]
    simp
  · rw [parseProps, parseProps, List.foldl_append,
      foldl_insert_no_match matchPropLine cmds [] hcmds]
  · constructor
    · rintro ⟨kv, hkv⟩
      match line, hkv with
      | [], hkv => cases hkv
      | c :: rest, hkv =>
        rw [matchPropLine] at hkv
        by_cases hc : c = '#'
        · subst hc
          rw [if_pos rfl] at hkv
          by_cases hk : rest.takeWhile isWordChar = []
          · rw [if_pos hk] at hkv
            cases hkv
          · rw [if_neg hk] at hkv
            split at hkv
            pick_goal 2
            · cases hkv
            next r2 heq =>
              refine ⟨rest.takeWhile isWordChar,
                (rest.dropWhile isWordChar).takeWhile isSpaceChar,
                r2.takeWhile isSpaceChar, r2.dropWhile isSpaceChar, ?_, hk,
                fun c2 hcm => List.mem_takeWhile_imp hcm,
                fun c2 hcm => List.mem_takeWhile_imp hcm,
                fun c2 hcm => List.mem_takeWhile_imp hcm⟩
              congr 1
              rw [List.takeWhile_append_dropWhile isSpaceChar r2, ← heq,
                List.takeWhile_append_dropWhile isSpaceChar,
                List.takeWhile_append_dropWhile isWordChar rest]
        · rw [if_neg hc] at hkv
          cases hkv
    · rintro ⟨key, s1, s2, v, rfl, hkey, hword, hs1, hs2⟩
      have hhead : ∀ c2, (s1 ++ '=' :: (s2 ++ v)).head? = some c2 →
          isWordChar c2 = false := by
        intro c2 hch
        match s1, hs1, hch with
        | [], _, hch =>
          injection hch with hch
          subst hch
          decide
        | c1 :: s1t, hs1, hch =>
          injection hch with hch
          subst hch
          exact space_not_word c1 (hs1 c1 (by simp))
      have htake : (key ++ (s1 ++ '=' :: (s2 ++ v))).takeWhile isWordChar = key :=
        takeWhile_append_sat isWordChar key _ hword hhead
      have hdrop : (key ++ (s1 ++ '=' :: (s2 ++ v))).dropWhile isWordChar =
          s1 ++ '=' :: (s2 ++ v) :=
        dropWhile_append_sat isWordChar key _ hword hhead
      have hdrop2 : (s1 ++ '=' :: (s2 ++ v)).dropWhile isSpaceChar = '=' :: (s2 ++ v) :=
        dropWhile_append_sat isSpaceChar s1 _ hs1
          (fun c2 hch => by
            injection hch with hch
            subst hch
            decide)
      refine ⟨(key, (s2 ++ v).dropWhile isSpaceChar), ?_⟩
      rw [matchPropLine, if_pos rfl, htake, if_neg hkey, hdrop, hdrop2]
      rfl

/-- Witness for C5 on a small concrete file: a property line after a command
line is still collected, command lines leave the result unchanged, and the
line `#a =b` matches while `nope=1` yields nothing. -/
theorem C5_property_lines_collected_witness :
    (str "a" ∈ (parseProps [str "yum install -y vim", str "#a =b"]).map Prod.fst)
    ∧ parseProps [str "yum install -y vim", str "#a =b"] = parseProps [str "#a =b"] := by
  have h := C5_property_lines_collected
    [str "yum install -y vim", str "#a =b"]
    [str "yum install -y vim"] [str "#a =b"] (str "#a =b") (str "a")
    (by decide)
  exact ⟨(h.1).mpr ⟨str "#a =b", by decide, str "b", by decide⟩, h.2.1⟩

/-- A bind whose first step succeeds runs the continuation and appends its
trace. -/
theorem evBind_ok_eq {α β : Type} (tr : List Ev) (a : α)
    (f : α → List Ev × Except RunErr β) :
    evBind (tr, .ok a) f = (tr ++ (f a).1, (f a).2) := by
  rcases hf : f a with ⟨tr2, r2⟩
  simp [evBind, hf]

/-- A bind whose first step fails short-circuits with that step's trace and
error. -/
theorem evBind_error_eq {α β : Type} (tr : List Ev) (e : RunErr)
    (f : α → List Ev × Except RunErr β) :
    evBind (tr, .error e) f = (tr, .error e) := rfl

/-- A successfully loaded spec carries exactly the parsed properties and the
source path. -/
theorem from_spec_file_ok_shape (required : List Str) (p : FPath)
    (lines : List Str) (sp : Spec)
    (h : from_spec_file required p lines = .ok sp) :
    sp = ⟨parseProps lines, p⟩ := by
  rw [from_spec_file] at h
  split at h
  · injection h with h2
    exact h2.symm
  · cases h

/-- Every spec property is echoed verbatim as a `key=value` line of the
virt-builder metadata block. -/
theorem prop_line_mem_metadata_lines (env : Env) (sp : Spec) (image_path : FPath)
    (info : UncompressedTplInfo) (kv : Str × Str) (h : kv ∈ sp.props) :
    (kv.1 ++ '=' :: kv.2) ∈ get_virt_builder_metadata_lines env sp image_path info := by
  rw [get_virt_builder_metadata_lines]
  exact List.mem_append_right _ (List.mem_map_of_mem _ h)

/-- Concrete environment for evaluating one metadata block. -/
def envC4 : Env where
  fileLines := fun _ => []
  fileSize := fun _ => 7
  sha1 := fun _ => str "qq"
  sha512 := fun _ => str "w512"
  mtime := fun _ => 0
  listDir := fun _ => []
  exitCode := fun _ => 0
  pathExists := fun _ => true
  now := ⟨2019, 5, 14, 9, 30, 0⟩

/-- Concrete spec for evaluating one metadata block. -/
def spC4 : Spec :=
  ⟨[(str "name", str "fedora30"), (str "arch", str "x86_64")],
    (str "image-specs", str "fedora30")⟩

/-- Concrete compressed image path. -/
def imagePathC4 : FPath := (str "image-repo", str "fedora30.xz")

/-- Concrete uncompressed facts whose SHA-1 digest is the marker `zq1`. -/
def infoC4 : UncompressedTplInfo := ⟨9, str "zq1", str "u512"⟩

set_option maxRecDepth 40000 in
/--
C4 counterexample: the virt-builder metadata block does NOT contain the SHA-1
digest of the uncompressed image — at this concrete input the uncompressed
SHA-1 is `zq1` and `zq1` occurs nowhere in the emitted block (the two
checksum lines carry the uncompressed SHA-512 and the SHA-512 of the
compressed file instead).
-/
theorem C4_sha1_absent_counterexample :
    infoC4.checksum_sha1 = str "zq1"
    ∧ ¬ (str "zq1" <:+:
      get_virt_builder_image_metadata envC4 spC4 imagePathC4 infoC4) := by
  exact ⟨rfl, by decide⟩

/--
C4 (amended): every virt-builder metadata block contains the synthesized
section header, the file name, the format, the compressed size, the
uncompressed size, the uncompressed image's SHA-512 digest (as
`uncompressed_checksum`), the SHA-512 digest of the compressed file (as
`checksum`), the timestamp-derived revision number, and every original spec
property as a `key=value` line; the uncompressed SHA-1 digest is not among
the emitted fields.
-/
theorem C4_block_fields (env : Env) (sp : Spec) (image_path : FPath)
    (info : UncompressedTplInfo) :
    ((str "[lago-" ++ rsplitAllHead image_path.2 ++ str "]")
        ∈ get_virt_builder_metadata_lines env sp image_path info)
    ∧ (str "file=" ++ image_path.2)
        ∈ get_virt_builder_metadata_lines env sp image_path info
    ∧ str "format=qcow2" ∈ get_virt_builder_metadata_lines env sp image_path info
    ∧ (str "compressed_size=" ++ natStr (env.fileSize image_path))
        ∈ get_virt_builder_metadata_lines env sp image_path info
    ∧ (str "size=" ++ natStr info.size)
        ∈ get_virt_builder_metadata_lines env sp image_path info
    ∧ (str "uncompressed_checksum=" ++ info.checksum_sha512)
        ∈ get_virt_builder_metadata_lines env sp image_path info
    ∧ (str "checksum=" ++ env.sha512 image_path)
        ∈ get_virt_builder_metadata_lines env sp image_path info
    ∧ (str "revision=" ++ natStr (revision env.now))
        ∈ get_virt_builder_metadata_lines env sp image_path info
    ∧ ∀ kv ∈ sp.props, (kv.1 ++ '=' :: kv.2)
        ∈ get_virt_builder_metadata_lines env sp image_path info := by
  refine ⟨?_, ?_, ?_, ?_, ?_, ?_, ?_, ?_,
    fun kv hkv => prop_line_mem_metadata_lines env sp image_path info kv hkv⟩
  all_goals
    simp [get_virt_builder_metadata_lines]

/-- Witness for C4 (amended) at the concrete block input. -/
theorem C4_block_fields_witness :
    str "format=qcow2" ∈ get_virt_builder_metadata_lines envC4 spC4 imagePathC4 infoC4
    ∧ (str "arch" ++ '=' :: str "x86_64")
        ∈ get_virt_builder_metadata_lines envC4 spC4 imagePathC4 infoC4 :=
  ⟨(C4_block_fields envC4 spC4 imagePathC4 infoC4).2.2.1,
    (C4_block_fields envC4 spC4 imagePathC4 infoC4).2.2.2.2.2.2.2.2
      (str "arch", str "x86_64") (by decide)⟩

/-- Witness for C6: a concrete spec with `{name, base, distro}` passes the
lago policy. -/
theorem C6_validation_policies_witness :
    specVerify lagoRequiredProps
      ⟨[(str "name", str "a"), (str "base", str "b"), (str "distro", str "c")],
        (str "image-specs", str "a")⟩ = .ok () :=
  (C6_validation_policies.2.2.2 lagoRequiredProps
    ⟨[(str "name", str "a"), (str "base", str "b"), (str "distro", str "c")],
      (str "image-specs", str "a")⟩).mpr (by decide)

/-- Witness for C10: the header line of the concrete block. -/
theorem C10_header_truncates_at_first_dot_witness :
    (get_virt_builder_metadata_lines envC4 spC4 imagePathC4 infoC4).head? =
      some (str "[lago-" ++ rsplitAllHead (str "fedora30.xz") ++ str "]") :=
  (C10_header_truncates_at_first_dot.1 envC4 spC4 imagePathC4 infoC4).1

/-- The per-spec relation of the virt-builder index: the spec loads
successfully, its compressed image's facts are found, and the block is the
metadata of exactly that spec and image. -/
def BlockOfSpec (env : Env) (repo_dir : Str)
    (infos : List (FPath × UncompressedTplInfo)) (p : FPath) (b : Str) : Prop :=
  ∃ sp info,
    from_spec_file virtBuilderRequiredProps p (env.fileLines p) = .ok sp
    ∧ lookupAssoc infos (image_path_from_spec repo_dir sp true) = some info
    ∧ b = get_virt_builder_image_metadata env sp
        (image_path_from_spec repo_dir sp true) info

/-- A block generation step with a loadable spec and known image facts
produces exactly the spec's metadata block (and reads the spec file and the
compressed image). -/
theorem virtBuilderBlock_ok (env : Env) (repo_dir : Str)
    (infos : List (FPath × UncompressedTplInfo)) (p : FPath) (sp : Spec)
    (info : UncompressedTplInfo)
    (hsp : from_spec_file virtBuilderRequiredProps p (env.fileLines p) = .ok sp)
    (hinfo : lookupAssoc infos (image_path_from_spec repo_dir sp true) = some info) :
    virtBuilderBlock env repo_dir infos p =
      ([Ev.readFile p, Ev.readFile (image_path_from_spec repo_dir sp true)],
        .ok (get_virt_builder_image_metadata env sp
          (image_path_from_spec repo_dir sp true) info)) := by
  rw [virtBuilderBlock, hsp]
  simp only [mapErr]
  rw [evBind_ok_eq]
  simp only [hinfo]
  rfl

/-- When every spec loads and has known image facts, the block list succeeds
and pairs up with the specs one block per spec. -/
theorem virtBuilderBlocks_ok (env : Env) (repo_dir : Str)
    (infos : List (FPath × UncompressedTplInfo)) :
    ∀ specs : List FPath,
      (∀ p ∈ specs, ∃ sp info,
        from_spec_file virtBuilderRequiredProps p (env.fileLines p) = .ok sp
        ∧ lookupAssoc infos (image_path_from_spec repo_dir sp true) = some info) →
      ∃ blocks : List Str,
        (virtBuilderBlocks env repo_dir infos specs).2 = .ok blocks
        ∧ List.Forall₂ (BlockOfSpec env repo_dir infos) specs blocks
  | [], _ => ⟨[], rfl, List.Forall₂.nil⟩
  | p :: ps, h => by
    obtain ⟨sp, info, hsp, hinfo⟩ := h p (by simp)
    obtain ⟨blocks, hb, hf⟩ :=
      virtBuilderBlocks_ok env repo_dir infos ps
        (fun q hq => h q (by simp [hq]))
    rcases hq : virtBuilderBlocks env repo_dir infos ps with ⟨tr2, r2⟩
    rw [hq] at hb
    simp only at hb
    subst hb
    refine ⟨get_virt_builder_image_metadata env sp
        (image_path_from_spec repo_dir sp true) info :: blocks, ?_,
      List.Forall₂.cons ⟨sp, info, hsp, hinfo, rfl⟩ hf⟩
    rw [virtBuilderBlocks,
      virtBuilderBlock_ok env repo_dir infos p sp info hsp hinfo,
      evBind_ok_eq, hq, evBind_ok_eq]

/--
C3: when every spec of a non-empty list re-parses successfully and its
compressed image's facts are known, the ecosystem-B index content is exactly
the blocks joined by a blank line with a single trailing newline, with exactly
one block per spec (in order), and each block is the newline-join of its
metadata lines, among which every property parsed from the original spec file
appears as a `key=value` line with the parsed value echoed verbatim.
-/
theorem C3_virt_builder_index_blocks (env : Env) (repo_dir : Str)
    (specs : List FPath) (infos : List (FPath × UncompressedTplInfo))
    (hne : specs ≠ [])
    (hok : ∀ p ∈ specs, ∃ sp info,
      from_spec_file virtBuilderRequiredProps p (env.fileLines p) = .ok sp
      ∧ lookupAssoc infos (image_path_from_spec repo_dir sp true) = some info) :
    ∃ blocks : List Str,
      (generate_virt_builder_repo_metadata env repo_dir specs infos).2
        = .ok (List.intercalate (str "\n\n") blocks ++ str "\n")
      ∧ blocks.length = specs.length
      ∧ blocks ≠ []
      ∧ List.Forall₂ (fun p b => ∃ sp info,
          from_spec_file virtBuilderRequiredProps p (env.fileLines p) = .ok sp
          ∧ sp.props = parseProps (env.fileLines p)
          ∧ b = List.intercalate (str "\n")
              (get_virt_builder_metadata_lines env sp
                (image_path_from_spec repo_dir sp true) info)
          ∧ ∀ kv ∈ parseProps (env.fileLines p), (kv.1 ++ '=' :: kv.2)
              ∈ get_virt_builder_metadata_lines env sp
                (image_path_from_spec repo_dir sp true) info)
        specs blocks := by
  obtain ⟨blocks, hb, hf⟩ := virtBuilderBlocks_ok env repo_dir infos specs hok
  have hlen : specs.length = blocks.length := List.Forall₂.length_eq hf
  refine ⟨blocks, ?_, hlen.symm, ?_, ?_⟩
  · rw [generate_virt_builder_repo_metadata]
    rcases hq : virtBuilderBlocks env repo_dir infos specs with ⟨tr2, r2⟩
    rw [hq] at hb
    simp only at hb
    subst hb
    rw [evBind_ok_eq]
  · intro hbe
    apply hne
    rw [← List.length_eq_zero]
    rw [hlen, hbe]
    rfl
  · refine List.Forall₂.imp ?_ hf
    rintro p b ⟨sp, info, hsp, hinfo, rfl⟩
    have hshape := from_spec_file_ok_shape _ _ _ _ hsp
    refine ⟨sp, info, hsp, by rw [hshape], rfl, ?_⟩
    intro kv hkv
    apply prop_line_mem_metadata_lines
    rw [hshape]
    exact hkv

/-- Concrete spec path for exercising the index generator. -/
def pC3 : FPath := (str "image-specs", str "f30")

/-- Concrete environment whose one spec file carries all virt-builder
required properties. -/
def envC3 : Env where
  fileLines := fun _ => [str "#name=f30", str "#base=fedora-30",
    str "#osinfo=fedora30", str "#arch=x86_64", str "#expand=/dev/sda3"]
  fileSize := fun _ => 3
  sha1 := fun _ => str "s1"
  sha512 := fun _ => str "s5"
  mtime := fun _ => 0
  listDir := fun _ => []
  exitCode := fun _ => 0
  pathExists := fun _ => true
  now := ⟨2019, 5, 14, 9, 30, 0⟩

/-- Concrete uncompressed-facts dictionary for the one compressed image. -/
def infosC3 : List (FPath × UncompressedTplInfo) :=
  [((str "image-repo", str "f30.xz"), ⟨4, str "u1", str "u5"⟩)]

/-- Witness for C3 at one concrete spec. -/
theorem C3_virt_builder_index_blocks_witness :
    ∃ blocks : List Str,
      (generate_virt_builder_repo_metadata envC3 (str "image-repo") [pC3] infosC3).2
        = .ok (List.intercalate (str "\n\n") blocks ++ str "\n")
      ∧ blocks.length = 1 := by
  obtain ⟨blocks, h1, h2, _⟩ :=
    C3_virt_builder_index_blocks envC3 (str "image-repo") [pC3] infosC3
      (by decide)
      (fun p hp => by
        rw [List.mem_singleton] at hp
        subst hp
        exact ⟨⟨parseProps (envC3.fileLines pC3), pC3⟩,
          ⟨4, str "u1", str "u5"⟩, by decide, by decide⟩)
  exact ⟨blocks, h1, by simpa using h2⟩

/-- The uncompressed image path is the spec's base name inside the output
directory. -/
theorem image_path_uncompressed (dst_dir : Str) (sp : Spec) :
    image_path_from_spec dst_dir sp false = (dst_dir, sp.commands_file.2) := by
  simp [image_path_from_spec]

/-- The compressed image path appends `.xz` to the base name. -/
theorem image_path_compressed (dst_dir : Str) (sp : Spec) :
    image_path_from_spec dst_dir sp true = (dst_dir, sp.commands_file.2 ++ str ".xz") := by
  simp [image_path_from_spec]

/-- Closure of an event predicate under `evBind`: the continuation is only ever
run on the value the first step actually produced. -/
theorem evBind_events {α β : Type} (P : Ev → Prop) (x : List Ev × Except RunErr α)
    (f : α → List Ev × Except RunErr β)
    (hx : ∀ ev ∈ x.1, P ev)
    (hf : ∀ a, x.2 = .ok a → ∀ ev ∈ (f a).1, P ev) :
    ∀ ev ∈ (evBind x f).1, P ev := by
  rcases x with ⟨tr, r⟩
  cases r with
  | error e =>
    intro ev hev
    exact hx ev hev
  | ok a =>
    rw [evBind_ok_eq]
    intro ev hev
    rcases List.mem_append.mp hev with h | h
    · exact hx ev h
    · exact hf a rfl ev h

/-- Count bound through `evBind`. -/
theorem evBind_countP {α β : Type} (pr : Ev → Bool) (x : List Ev × Except RunErr α)
    (f : α → List Ev × Except RunErr β) (n m : Nat)
    (hx : List.countP pr x.1 ≤ n)
    (hf : ∀ a, x.2 = .ok a → List.countP pr (f a).1 ≤ m) :
    List.countP pr (evBind x f).1 ≤ n + m := by
  rcases x with ⟨tr, r⟩
  cases r with
  | error e => exact Nat.le_trans hx (Nat.le_add_right n m)
  | ok a =>
    rw [evBind_ok_eq, List.countP_append]
    exact Nat.add_le_add hx (hf a rfl)

/-- Successful loading through `mapErr` inverts to successful loading. -/
theorem mapErr_ok_inv {ε ε' α : Type} (f : ε → ε') (x : Except ε α) (a : α)
    (h : mapErr f x = .ok a) : x = .ok a := by
  cases x with
  | ok b =>
    injection h with hb
    rw [hb]
  | error e => cases h

/-- The events of one main-loop iteration: the spec file is read; everything
else is an external command, a file created in the output directory, a read
from the output directory, or the deletion of the spec's uncompressed image
in the output directory. -/
theorem runSpec_events (env : Env) (fmt : RepoFormat) (repo_dir : Str)
    (with_update : Bool) (q : FPath) :
    ∀ ev ∈ (runSpec env fmt repo_dir with_update q).1,
      ev = Ev.readFile q
      ∨ (∃ n, ev = Ev.createFile (repo_dir, n))
      ∨ (∃ n, ev = Ev.readFile (repo_dir, n))
      ∨ (∃ c, ev = Ev.exec c)
      ∨ ev = Ev.deleteFile (repo_dir, q.2) := by
  rw [runSpec]
  apply evBind_events
  · intro ev hev
    rw [List.mem_singleton] at hev
    exact Or.inl hev
  · intro sp hsp ev hev
    have hq : sp.commands_file = q := by
      have := from_spec_file_ok_shape _ _ _ _
        (mapErr_ok_inv RunErr.malformed _ sp hsp)
      rw [this]
    revert ev hev
    apply evBind_events
    · rw [generate_image]
      rcases hbase : lookupAssoc sp.props (str "base") with _ | bs
      · intro ev hev
        cases hev
      · apply evBind_events
        · rw [build_template]
          apply evBind_events
          · rw [build_disk_image]
            apply evBind_events
            · intro ev hev
              rw [call] at hev
              rw [List.mem_singleton] at hev
              exact Or.inr (Or.inr (Or.inr (Or.inl ⟨_, hev⟩)))
            · intro a _ ev hev
              rw [List.mem_singleton] at hev
              subst hev
              exact Or.inr (Or.inl ⟨_, rfl⟩)
          · intro a _
            apply evBind_events
            · rw [prepare_disk_template]
              apply evBind_events
              · intro ev hev
                rw [call] at hev
                rw [List.mem_singleton] at hev
                exact Or.inr (Or.inr (Or.inr (Or.inl ⟨_, hev⟩)))
              · intro b _
                apply evBind_events
                · intro ev hev
                  rw [call] at hev
                  rw [List.mem_singleton] at hev
                  exact Or.inr (Or.inr (Or.inr (Or.inl ⟨_, hev⟩)))
                · intro c _
                  apply evBind_events
                  · intro ev hev
                    rw [call] at hev
                    rw [List.mem_singleton] at hev
                    exact Or.inr (Or.inr (Or.inr (Or.inl ⟨_, hev⟩)))
                  · intro d _ ev hev
                    rw [List.mem_singleton] at hev
                    subst hev
                    exact Or.inr (Or.inl ⟨_, rfl⟩)
            · intro sz _
              apply evBind_events
              · intro ev hev
                rw [get_hash_traced] at hev
                rw [List.mem_singleton] at hev
                subst hev
                rw [image_path_uncompressed]
                exact Or.inr (Or.inr (Or.inl ⟨_, rfl⟩))
              · intro s1 _
                apply evBind_events
                · intro ev hev
                  rw [get_hash_traced] at hev
                  rw [List.mem_singleton] at hev
                  subst hev
                  rw [image_path_uncompressed]
                  exact Or.inr (Or.inr (Or.inl ⟨_, rfl⟩))
                · intro s2 _ ev hev
                  rw [List.mem_singleton] at hev
                  subst hev
                  rw [image_path_uncompressed, hq]
                  exact Or.inr (Or.inr (Or.inr (Or.inr rfl)))
        · intro info _ ev hev
          cases hev
    · intro res _ ev hev
      rcases hfmt : includesLago fmt with _ | _
      · rw [hfmt] at hev
        simp only [Bool.false_eq_true, if_neg] at hev
        cases hev
      · rw [hfmt] at hev
        simp only [if_pos] at hev
        rw [generate_lago_image_metadata] at hev
        rcases List.mem_cons.mp hev with h | h
        · subst h
          exact Or.inr (Or.inl ⟨_, rfl⟩)
        · rw [List.mem_singleton] at h
          subst h
          exact Or.inr (Or.inl ⟨_, rfl⟩)

/-- Recognizer for `virt-builder` invocations in the trace. -/
def isVirtBuilderExec (ev : Ev) : Bool :=
  match ev with
  | Ev.exec (c :: _) => c == str "virt-builder"
  | _ => false

/-- A one-element trace holds at most one hit. -/
theorem countP_singleton_le {α : Type} (pr : α → Bool) (x : α) :
    List.countP pr [x] ≤ 1 := by
  rw [List.countP_cons, List.countP_nil]
  cases h : pr x <;> simp [h]

/-- A one-element trace of a non-hit holds none. -/
theorem countP_singleton_zero {α : Type} (pr : α → Bool) (x : α)
    (h : pr x = false) : List.countP pr [x] = 0 := by
  rw [List.countP_cons, List.countP_nil]
  simp [h]

/-- Zero count through `evBind`. -/
theorem evBind_countP_zero {α β : Type} (pr : Ev → Bool)
    (x : List Ev × Except RunErr α) (f : α → List Ev × Except RunErr β)
    (hx : List.countP pr x.1 = 0)
    (hf : ∀ a, x.2 = .ok a → List.countP pr (f a).1 = 0) :
    List.countP pr (evBind x f).1 = 0 := by
  rcases x with ⟨tr, r⟩
  cases r with
  | error e => exact hx
  | ok a =>
    rw [evBind_ok_eq, List.countP_append, hx, hf a rfl]

/-- Count bound through `evBind` when only the first step may hit. -/
theorem evBind_countP_le {α β : Type} (pr : Ev → Bool)
    (x : List Ev × Except RunErr α) (f : α → List Ev × Except RunErr β) (k : Nat)
    (hx : List.countP pr x.1 ≤ k)
    (hf : ∀ a, x.2 = .ok a → List.countP pr (f a).1 = 0) :
    List.countP pr (evBind x f).1 ≤ k := by
  rcases x with ⟨tr, r⟩
  cases r with
  | error e => exact hx
  | ok a =>
    rw [evBind_ok_eq, List.countP_append, hf a rfl]
    exact hx

/-- Count bound through `evBind` when only the continuation may hit. -/
theorem evBind_countP_le0 {α β : Type} (pr : Ev → Bool)
    (x : List Ev × Except RunErr α) (f : α → List Ev × Except RunErr β) (k : Nat)
    (hx : List.countP pr x.1 = 0)
    (hf : ∀ a, x.2 = .ok a → List.countP pr (f a).1 ≤ k) :
    List.countP pr (evBind x f).1 ≤ k := by
  rcases x with ⟨tr, r⟩
  cases r with
  | error e =>
    rw [evBind_error_eq]
    exact Nat.le_trans (Nat.le_of_eq hx) (Nat.zero_le k)
  | ok a =>
    rw [evBind_ok_eq, List.countP_append, hx]
    simpa using hf a rfl

/-- The image-preparation phase never invokes `virt-builder`. -/
theorem prepare_countP_virt_builder (env : Env) (disk_image : FPath) :
    List.countP isVirtBuilderExec (prepare_disk_template env disk_image).1 = 0 := by
  rw [prepare_disk_template]
  apply evBind_countP_zero
  · exact countP_singleton_zero _ _ rfl
  · intro a _
    apply evBind_countP_zero
    · exact countP_singleton_zero _ _ rfl
    · intro b _
      apply evBind_countP_zero
      · exact countP_singleton_zero _ _ rfl
      · intro c _
        exact countP_singleton_zero _ _ rfl

/-- One main-loop iteration invokes `virt-builder` at most once: no retry. -/
theorem runSpec_countP_virt_builder (env : Env) (fmt : RepoFormat)
    (repo_dir : Str) (with_update : Bool) (q : FPath) :
    List.countP isVirtBuilderExec (runSpec env fmt repo_dir with_update q).1 ≤ 1 := by
  rw [runSpec]
  apply evBind_countP_le0
  · exact countP_singleton_zero _ _ rfl
  · intro sp _
    apply evBind_countP_le
    · rw [generate_image]
      rcases hbase : lookupAssoc sp.props (str "base") with _ | bs
      · exact Nat.zero_le 1
      · apply evBind_countP_le
        · rw [build_template]
          apply evBind_countP_le
          · rw [build_disk_image]
            apply evBind_countP_le
            · rw [call]
              exact countP_singleton_le _ _
            · intro a _
              exact countP_singleton_zero _ _ rfl
          · intro a _
            apply evBind_countP_zero
            · exact prepare_countP_virt_builder env _
            · intro sz _
              apply evBind_countP_zero
              · exact countP_singleton_zero _ _ rfl
              · intro s1 _
                apply evBind_countP_zero
                · exact countP_singleton_zero _ _ rfl
                · intro s2 _
                  exact countP_singleton_zero _ _ rfl
        · intro info _
          rfl
    · intro res _
      rcases hfmt : includesLago fmt with _ | _
      · simp
      · simp [generate_lago_image_metadata, List.countP_cons, isVirtBuilderExec]

/-- A command with exit status zero. -/
theorem call_ok (env : Env) (command : List Str) (h : env.exitCode command = 0) :
    call env command = ([Ev.exec command], .ok ()) := by
  simp [call, h]

/-- A command with non-zero exit status raises with the command line. -/
theorem call_fail (env : Env) (command : List Str) (h : env.exitCode command ≠ 0) :
    call env command = ([Ev.exec command], .error (.toolFailed command)) := by
  simp [call, h]

/-- `generate_image` with a missing `base` property raises `KeyError`. -/
theorem generate_image_eq_none (env : Env) (sp : Spec) (dst_dir : Str)
    (with_update : Bool) (hbase : lookupAssoc sp.props (str "base") = none) :
    generate_image env sp dst_dir with_update =
      ([], .error (.keyError (str "base"))) := by
  rw [generate_image, hbase]

/-- `generate_image` with a present `base` property builds the template and
returns the compressed path. -/
theorem generate_image_eq_some (env : Env) (sp : Spec) (dst_dir : Str)
    (with_update : Bool) (bs : Str)
    (hbase : lookupAssoc sp.props (str "base") = some bs) :
    generate_image env sp dst_dir with_update =
      evBind (build_template env sp.commands_file
          (image_path_from_spec dst_dir sp false) bs (str "123456") with_update)
        (fun info =>
          ([], .ok (((image_path_from_spec dst_dir sp false).1,
            (image_path_from_spec dst_dir sp false).2 ++ str ".xz"), info))) := by
  rw [generate_image, hbase]

/-- The full trace and result of a successful `build_template`. -/
theorem build_template_ok (env : Env) (commands_file dst : FPath) (bs : Str)
    (with_update : Bool)
    (h1 : env.exitCode (build_disk_image_command commands_file dst (str "123456")
      with_update bs) = 0)
    (h2 : env.exitCode (sysprep_command dst) = 0)
    (h3 : env.exitCode (sparsify_command dst) = 0)
    (h4 : env.exitCode (xz_command dst) = 0) :
    build_template env commands_file dst bs (str "123456") with_update =
      ([Ev.exec (build_disk_image_command commands_file dst (str "123456")
          with_update bs),
        Ev.createFile dst,
        Ev.exec (sysprep_command dst),
        Ev.exec (sparsify_command dst),
        Ev.exec (xz_command dst),
        Ev.createFile (dst.1, dst.2 ++ str ".xz"),
        Ev.readFile dst, Ev.readFile dst, Ev.deleteFile dst],
       .ok ⟨env.fileSize dst, env.sha1 dst, env.sha512 dst⟩) := by
  rw [build_template, build_disk_image, call_ok env _ h1, evBind_ok_eq,
    evBind_ok_eq, prepare_disk_template, call_ok env _ h2, evBind_ok_eq,
    call_ok env _ h3, evBind_ok_eq, call_ok env _ h4, evBind_ok_eq,
    evBind_ok_eq, get_hash_traced, evBind_ok_eq, get_hash_traced, evBind_ok_eq]
  rfl

/-- The full trace and result of a successful main-loop iteration. -/
theorem runSpec_ok_shape (env : Env) (fmt : RepoFormat) (repo_dir : Str)
    (with_update : Bool) (q : FPath) (sp : Spec) (bs : Str)
    (hsp : from_spec_file (required_props_of fmt) q (env.fileLines q) = .ok sp)
    (hbase : lookupAssoc sp.props (str "base") = some bs)
    (h1 : env.exitCode (build_disk_image_command sp.commands_file
      (repo_dir, sp.commands_file.2) (str "123456") with_update bs) = 0)
    (h2 : env.exitCode (sysprep_command (repo_dir, sp.commands_file.2)) = 0)
    (h3 : env.exitCode (sparsify_command (repo_dir, sp.commands_file.2)) = 0)
    (h4 : env.exitCode (xz_command (repo_dir, sp.commands_file.2)) = 0) :
    runSpec env fmt repo_dir with_update q =
      ([Ev.readFile q,
        Ev.exec (build_disk_image_command sp.commands_file
          (repo_dir, sp.commands_file.2) (str "123456") with_update bs),
        Ev.createFile (repo_dir, sp.commands_file.2),
        Ev.exec (sysprep_command (repo_dir, sp.commands_file.2)),
        Ev.exec (sparsify_command (repo_dir, sp.commands_file.2)),
        Ev.exec (xz_command (repo_dir, sp.commands_file.2)),
        Ev.createFile (repo_dir, sp.commands_file.2 ++ str ".xz"),
        Ev.readFile (repo_dir, sp.commands_file.2),
        Ev.readFile (repo_dir, sp.commands_file.2),
        Ev.deleteFile (repo_dir, sp.commands_file.2)]
        ++ (if includesLago fmt then
              [Ev.createFile (repo_dir, sp.commands_file.2 ++ str ".metadata"),
               Ev.createFile (repo_dir, sp.commands_file.2 ++ str ".hash")]
            else []),
       .ok ((repo_dir, sp.commands_file.2 ++ str ".xz"),
         ⟨env.fileSize (repo_dir, sp.commands_file.2),
          env.sha1 (repo_dir, sp.commands_file.2),
          env.sha512 (repo_dir, sp.commands_file.2)⟩)) := by
  have hm : mapErr RunErr.malformed
      (from_spec_file (required_props_of fmt) q (env.fileLines q)) = .ok sp := by
    rw [hsp]
    rfl
  have hip : image_path_from_spec repo_dir sp false = (repo_dir, sp.commands_file.2) :=
    image_path_uncompressed repo_dir sp
  rw [runSpec, hm, evBind_ok_eq, generate_image_eq_some env sp repo_dir with_update bs hbase,
    hip] at *
  rw [build_template_ok env sp.commands_file (repo_dir, sp.commands_file.2) bs
    with_update h1 h2 h3 h4, evBind_ok_eq, evBind_ok_eq]
  rw [generate_lago_image_metadata, hip]
  rfl

/-- Inversion of a successful main-loop iteration: the spec loaded, `base` was
present, and all four external commands exited zero. -/
theorem runSpec_ok_inversion (env : Env) (fmt : RepoFormat) (repo_dir : Str)
    (with_update : Bool) (q : FPath) (r : FPath × UncompressedTplInfo)
    (h : (runSpec env fmt repo_dir with_update q).2 = .ok r) :
    ∃ sp bs,
      from_spec_file (required_props_of fmt) q (env.fileLines q) = .ok sp
      ∧ lookupAssoc sp.props (str "base") = some bs
      ∧ env.exitCode (build_disk_image_command sp.commands_file
          (repo_dir, sp.commands_file.2) (str "123456") with_update bs) = 0
      ∧ env.exitCode (sysprep_command (repo_dir, sp.commands_file.2)) = 0
      ∧ env.exitCode (sparsify_command (repo_dir, sp.commands_file.2)) = 0
      ∧ env.exitCode (xz_command (repo_dir, sp.commands_file.2)) = 0 := by
  rcases hsp : from_spec_file (required_props_of fmt) q (env.fileLines q) with e | sp
  · exfalso
    have hm : mapErr RunErr.malformed
        (from_spec_file (required_props_of fmt) q (env.fileLines q)) =
          .error (.malformed e) := by
      rw [hsp]
      rfl
    rw [runSpec, hm, evBind_error_eq] at h
    cases h
  · have hm : mapErr RunErr.malformed
        (from_spec_file (required_props_of fmt) q (env.fileLines q)) = .ok sp := by
      rw [hsp]
      rfl
    have hip : image_path_from_spec repo_dir sp false = (repo_dir, sp.commands_file.2) :=
      image_path_uncompressed repo_dir sp
    rw [runSpec, hm, evBind_ok_eq] at h
    rcases hbase : lookupAssoc sp.props (str "base") with _ | bs
    · exfalso
      rw [generate_image_eq_none env sp repo_dir with_update hbase, evBind_error_eq] at h
      simp at h
    · rw [generate_image_eq_some env sp repo_dir with_update bs hbase, hip] at h
      by_cases h1 : env.exitCode (build_disk_image_command sp.commands_file
          (repo_dir, sp.commands_file.2) (str "123456") with_update bs) = 0
      · rw [build_template, build_disk_image, call_ok env _ h1, evBind_ok_eq,
          evBind_ok_eq] at h
        by_cases h2 : env.exitCode (sysprep_command (repo_dir, sp.commands_file.2)) = 0
        · rw [prepare_disk_template, call_ok env _ h2, evBind_ok_eq] at h
          by_cases h3 : env.exitCode (sparsify_command (repo_dir, sp.commands_file.2)) = 0
          · rw [call_ok env _ h3, evBind_ok_eq] at h
            by_cases h4 : env.exitCode (xz_command (repo_dir, sp.commands_file.2)) = 0
            · exact ⟨sp, bs, rfl, hbase, h1, h2, h3, h4⟩
            · exfalso
              rw [call_fail env _ h4, evBind_error_eq] at h
              simp [evBind_error_eq] at h
          · exfalso
            rw [call_fail env _ h3, evBind_error_eq] at h
            simp [evBind_error_eq] at h
        · exfalso
          rw [prepare_disk_template, call_fail env _ h2, evBind_error_eq] at h
          simp [evBind_error_eq] at h
      · exfalso
        rw [build_template, build_disk_image, call_fail env _ h1, evBind_error_eq] at h
        simp [evBind_error_eq] at h

/-- A run of the main loop in which every iteration succeeds produces the
concatenation of the per-spec traces, in order. -/
theorem runSpecs_ok (env : Env) (fmt : RepoFormat) (repo_dir : Str)
    (with_update : Bool) :
    ∀ specs : List FPath,
      (∀ q ∈ specs, ∃ r, (runSpec env fmt repo_dir with_update q).2 = .ok r) →
      ∃ results, runSpecs env fmt repo_dir with_update specs =
        (specs.flatMap (fun q => (runSpec env fmt repo_dir with_update q).1),
          .ok results)
  | [], _ => ⟨[], rfl⟩
  | p :: ps, h => by
    obtain ⟨r, hr⟩ := h p (by simp)
    rcases hp : runSpec env fmt repo_dir with_update p with ⟨tr, res⟩
    rw [hp] at hr
    simp only at hr
    subst hr
    obtain ⟨results, hres⟩ :=
      runSpecs_ok env fmt repo_dir with_update ps (fun q hq => h q (by simp [hq]))
    refine ⟨r :: results, ?_⟩
    rw [runSpecs, hp, evBind_ok_eq, hres, evBind_ok_eq]
    simp [hp]

/-- A run of the main loop whose first failure is at spec `p` stops there:
the trace is the successful prefix followed by the failing iteration's
partial trace, the error is that iteration's error, and nothing of the
remaining specs is run. -/
theorem runSpecs_fail (env : Env) (fmt : RepoFormat) (repo_dir : Str)
    (with_update : Bool) (p : FPath) (post : List FPath) (trFail : List Ev)
    (e : RunErr)
    (hfail : runSpec env fmt repo_dir with_update p = (trFail, .error e)) :
    ∀ pre : List FPath,
      (∀ q ∈ pre, ∃ r, (runSpec env fmt repo_dir with_update q).2 = .ok r) →
      runSpecs env fmt repo_dir with_update (pre ++ p :: post) =
        (pre.flatMap (fun q => (runSpec env fmt repo_dir with_update q).1)
          ++ trFail, .error e)
  | [], _ => by
    rw [List.nil_append, runSpecs, hfail, evBind_error_eq]
    simp
  | q :: pre, h => by
    obtain ⟨r, hr⟩ := h q (by simp)
    rcases hq : runSpec env fmt repo_dir with_update q with ⟨tr, res⟩
    rw [hq] at hr
    simp only at hr
    subst hr
    have ih := runSpecs_fail env fmt repo_dir with_update p post trFail e hfail
      pre (fun x hx => h x (by simp [hx]))
    rw [List.cons_append, runSpecs, hq, evBind_ok_eq, ih, evBind_error_eq]
    simp [hq]

/-- A failing main loop makes the whole run fail with the same error and no
further trace beyond the optional directory creation. -/
theorem generate_repo_error (env : Env) (specs : List FPath) (repo_dir : Str)
    (fmt : RepoFormat) (with_update : Bool) (tr : List Ev) (e : RunErr)
    (h : runSpecs env fmt repo_dir with_update specs = (tr, .error e)) :
    generate_repo env specs repo_dir fmt with_update =
      ((if env.pathExists repo_dir then [] else [Ev.mkdir repo_dir]) ++ tr,
        .error e) := by
  rw [generate_repo, h]

/-- The trace of a run whose main loop succeeds: the optional directory
creation, the per-spec traces, the optional lago aggregate write, and the
optional virt-builder phase trace. -/
theorem generate_repo_ok_trace (env : Env) (specs : List FPath) (repo_dir : Str)
    (fmt : RepoFormat) (with_update : Bool) (tr : List Ev)
    (results : List (FPath × UncompressedTplInfo))
    (h : runSpecs env fmt repo_dir with_update specs = (tr, .ok results)) :
    (generate_repo env specs repo_dir fmt with_update).1 =
      (if env.pathExists repo_dir then [] else [Ev.mkdir repo_dir]) ++ tr
      ++ (if includesLago fmt then [Ev.createFile (repo_dir, str "repo.metadata")]
          else [])
      ++ (if includesVirtBuilder fmt then
            (generate_virt_builder_repo_metadata env repo_dir specs
              (results.foldl (fun d r => insertAssoc d r.1 r.2) [])).1
          else []) := by
  rw [generate_repo, h]
  rcases hvb : includesVirtBuilder fmt with _ | _
  · simp [hvb]
  · simp only [hvb, if_pos]
    rcases hm : generate_virt_builder_repo_metadata env repo_dir specs
        (results.foldl (fun d r => insertAssoc d r.1 r.2) []) with ⟨vtr, vres⟩
    cases vres <;> rw [hm]

/-- Every event of the virt-builder metadata phase is a file read or the
creation of the `index` file in the output directory. -/
theorem vb_phase_events (env : Env) (repo_dir : Str)
    (infos : List (FPath × UncompressedTplInfo)) :
    ∀ (specs : List FPath),
      ∀ ev ∈ (generate_virt_builder_repo_metadata env repo_dir specs infos).1,
        (∃ x, ev = Ev.readFile x) ∨ ev = Ev.createFile (repo_dir, str "index") := by
  have hblock : ∀ (p : FPath),
      ∀ ev ∈ (virtBuilderBlock env repo_dir infos p).1, ∃ x, ev = Ev.readFile x := by
    intro p
    rw [virtBuilderBlock]
    apply evBind_events
    · intro ev hev
      rw [List.mem_singleton] at hev
      exact ⟨p, hev⟩
    · intro sp _ ev hev
      rcases hbase : lookupAssoc infos (image_path_from_spec repo_dir sp true)
          with _ | info
      · rw [hbase] at hev
        cases hev
      · rw [hbase] at hev
        rw [List.mem_singleton] at hev
        exact ⟨image_path_from_spec repo_dir sp true, hev⟩
  have hblocks : ∀ (specs : List FPath),
      ∀ ev ∈ (virtBuilderBlocks env repo_dir infos specs).1, ∃ x, ev = Ev.readFile x := by
    intro specs
    induction specs with
    | nil =>
      intro ev hev
      cases hev
    | cons p ps ih =>
      rw [virtBuilderBlocks]
      apply evBind_events
      · exact hblock p
      · intro b _
        apply evBind_events
        · exact ih
        · intro bs _ ev hev
          cases hev
  intro specs
  rw [generate_virt_builder_repo_metadata]
  apply evBind_events
  · intro ev hev
    exact Or.inl (hblocks specs ev hev)
  · intro blocks _ ev hev
    rw [List.mem_singleton] at hev
    exact Or.inr hev

/-- The optional directory-creation prefix holds only `mkdir` of the output
directory. -/
theorem mkdirPart_events (c : Bool) (repo_dir : Str) :
    ∀ ev ∈ (if c then ([] : List Ev) else [Ev.mkdir repo_dir]),
      ev = Ev.mkdir repo_dir := by
  cases c <;> simp

/-- Counting hits over a flat map, one bound per element. -/
theorem countP_flatMap_le {α : Type} (pr : Ev → Bool) (f : α → List Ev) :
    ∀ l : List α, (∀ a ∈ l, List.countP pr (f a) ≤ 1) →
      List.countP pr (l.flatMap f) ≤ l.length
  | [], _ => by simp
  | a :: l, h => by
    rw [List.flatMap_cons, List.countP_append]
    have h1 := h a (by simp)
    have h2 := countP_flatMap_le pr f l (fun b hb => h b (by simp [hb]))
    simp only [List.length_cons]
    omega

/--
C7: when the first failure of a run — a spec that does not load or an
external command that exits non-zero — happens at spec `p`, the whole run
aborts with that same error: the trace is exactly the successful prefix
followed by the failing iteration's partial trace (nothing is appended
afterwards, so no cleanup of already-written files happens), no spec after
the failing one is even read, every file deletion in the trace is the normal
removal of a processed spec's uncompressed image inside the output directory,
and the image builder is invoked at most once per attempted spec (no retry).
-/
theorem C7_first_failure_aborts_run (env : Env) (fmt : RepoFormat)
    (repo_dir : Str) (with_update : Bool) (pre post : List FPath) (p : FPath)
    (trFail : List Ev) (e : RunErr)
    (hok : ∀ q ∈ pre, ∃ r, (runSpec env fmt repo_dir with_update q).2 = .ok r)
    (hfail : runSpec env fmt repo_dir with_update p = (trFail, .error e))
    (hpost : ∀ q ∈ post, q.1 ≠ repo_dir ∧ q ∉ pre ∧ q ≠ p) :
    (generate_repo env (pre ++ p :: post) repo_dir fmt with_update).2 = .error e
    ∧ (generate_repo env (pre ++ p :: post) repo_dir fmt with_update).1 =
        (if env.pathExists repo_dir then [] else [Ev.mkdir repo_dir])
        ++ (pre.flatMap (fun q => (runSpec env fmt repo_dir with_update q).1)
          ++ trFail)
    ∧ (∀ q ∈ post, Ev.readFile q ∉
        (generate_repo env (pre ++ p :: post) repo_dir fmt with_update).1)
    ∧ (∀ x : FPath, Ev.deleteFile x ∈
        (generate_repo env (pre ++ p :: post) repo_dir fmt with_update).1 →
        x.1 = repo_dir ∧ ∃ q, (q ∈ pre ∨ q = p) ∧ x = (repo_dir, q.2))
    ∧ List.countP isVirtBuilderExec
        (generate_repo env (pre ++ p :: post) repo_dir fmt with_update).1
        ≤ pre.length + 1 := by
  have hrs := runSpecs_fail env fmt repo_dir with_update p post trFail e hfail pre hok
  have hgen := generate_repo_error env (pre ++ p :: post) repo_dir fmt with_update
    _ e hrs
  rw [hgen]
  refine ⟨rfl, rfl, ?_, ?_, ?_⟩
  · intro q hq hmem
    rcases List.mem_append.mp hmem with h | h
    · exact Ev.noConfusion (mkdirPart_events _ repo_dir _ h)
    · have honespec : ∀ q' : FPath,
          Ev.readFile q ∈ (runSpec env fmt repo_dir with_update q').1 →
          q = q' ∨ q.1 = repo_dir := by
        intro q' hev
        rcases runSpec_events env fmt repo_dir with_update q' _ hev with
          h3 | ⟨n, h3⟩ | ⟨n, h3⟩ | ⟨c, h3⟩ | h3
        · injection h3 with h4
          exact Or.inl h4
        · exact Ev.noConfusion h3
        · injection h3 with h4
          rw [h4]
          exact Or.inr rfl
        · exact Ev.noConfusion h3
        · exact Ev.noConfusion h3
      rcases List.mem_append.mp h with h2 | h2
      · rcases List.mem_flatMap.mp h2 with ⟨q', hq', hev⟩
        rcases honespec q' hev with h4 | h4
        · exact (hpost q hq).2.1 (h4 ▸ hq')
        · exact (hpost q hq).1 h4
      · have hev : Ev.readFile q ∈ (runSpec env fmt repo_dir with_update p).1 := by
          rw [hfail]
          exact h2
        rcases honespec p hev with h4 | h4
        · exact (hpost q hq).2.2 h4
        · exact (hpost q hq).1 h4
  · intro x hmem
    rcases List.mem_append.mp hmem with h | h
    · exact Ev.noConfusion (mkdirPart_events _ repo_dir _ h)
    · have honespec : ∀ q' : FPath,
          Ev.deleteFile x ∈ (runSpec env fmt repo_dir with_update q').1 →
          x = (repo_dir, q'.2) := by
        intro q' hev
        rcases runSpec_events env fmt repo_dir with_update q' _ hev with
          h3 | ⟨n, h3⟩ | ⟨n, h3⟩ | ⟨c, h3⟩ | h3
        · exact Ev.noConfusion h3
        · exact Ev.noConfusion h3
        · exact Ev.noConfusion h3
        · exact Ev.noConfusion h3
        · injection h3
      rcases List.mem_append.mp h with h2 | h2
      · rcases List.mem_flatMap.mp h2 with ⟨q', hq', hev⟩
        have h4 := honespec q' hev
        exact ⟨by rw [h4], q', Or.inl hq', h4⟩
      · have hev : Ev.deleteFile x ∈ (runSpec env fmt repo_dir with_update p).1 := by
          rw [hfail]
          exact h2
        have h4 := honespec p hev
        exact ⟨by rw [h4], p, Or.inr rfl, h4⟩
  · rw [List.countP_append, List.countP_append]
    have hm : List.countP isVirtBuilderExec
        (if env.pathExists repo_dir then ([] : List Ev) else [Ev.mkdir repo_dir])
        = 0 := by
      cases env.pathExists repo_dir <;> simp [isVirtBuilderExec]
    have hflat := countP_flatMap_le isVirtBuilderExec
      (fun q => (runSpec env fmt repo_dir with_update q).1) pre
      (fun q _ => runSpec_countP_virt_builder env fmt repo_dir with_update q)
    have htf : List.countP isVirtBuilderExec trFail ≤ 1 := by
      have := runSpec_countP_virt_builder env fmt repo_dir with_update p
      rw [hfail] at this
      exact this
    omega

/-- Concrete spec paths: the second one will fail to build. -/
def qA : FPath := (str "image-specs", str "a")

/-- The failing spec path. -/
def qB : FPath := (str "image-specs", str "b")

/-- A spec path after the failing one. -/
def qC : FPath := (str "image-specs", str "c")

/-- Environment in which every spec parses with the lago-required properties
but the image build of spec `b` exits non-zero. -/
def envC7 : Env where
  fileLines := fun _ => [str "#name=n", str "#base=f30", str "#distro=fc30"]
  fileSize := fun _ => 5
  sha1 := fun _ => str "h1"
  sha512 := fun _ => str "h5"
  mtime := fun _ => 0
  listDir := fun _ => []
  exitCode := fun command =>
    if (str "--commands-from-file=" ++ pathStr (str "image-specs", str "b"))
        ∈ command then 1 else 0
  pathExists := fun _ => true
  now := ⟨2020, 1, 1, 0, 0, 0⟩

/-- The `virt-builder` command of the failing spec. -/
def vbCmdC7 : List Str :=
  build_disk_image_command (str "image-specs", str "b")
    (str "image-repo", str "b") (str "123456") false (str "f30")

set_option maxRecDepth 100000 in
/-- Witness for C7: with three specs of which the middle one's build fails,
the run errors with that build failure and the spec after it is never read. -/
theorem C7_first_failure_aborts_run_witness :
    (generate_repo envC7 [qA, qB, qC] (str "image-repo") RepoFormat.lago false).2
      = .error (.toolFailed vbCmdC7)
    ∧ Ev.readFile qC ∉
      (generate_repo envC7 [qA, qB, qC] (str "image-repo") RepoFormat.lago false).1 := by
  have h := C7_first_failure_aborts_run envC7 RepoFormat.lago (str "image-repo")
    false [qA] [qC] qB [Ev.readFile qB, Ev.exec vbCmdC7] (.toolFailed vbCmdC7)
    (fun q hq => by
      rw [List.mem_singleton] at hq
      subst hq
      exact ⟨((str "image-repo", str "a.xz"),
        ⟨5, str "h1", str "h5"⟩), by decide⟩)
    (by decide)
    (by decide)
  exact ⟨h.1, h.2.2.1 qC (by decide)⟩

/--
C8: during a repo-generation run whose main loop succeeds on every spec,
files are created and deleted only inside the output directory (and the only
directory ever created is the output directory); no spec input file outside
the output directory is ever created, overwritten or deleted; and for every
spec, its per-iteration trace reads the uncompressed image twice (the two
checksums) and deletes it immediately afterwards — before the next spec's
events, which follow in the per-spec concatenation — with only sidecar file
creations after the deletion inside that iteration.
-/
theorem C8_side_effects_confined (env : Env) (fmt : RepoFormat) (repo_dir : Str)
    (with_update : Bool) (specs : List FPath)
    (hok : ∀ q ∈ specs, ∃ r, (runSpec env fmt repo_dir with_update q).2 = .ok r) :
    (∀ x : FPath, Ev.createFile x ∈
      (generate_repo env specs repo_dir fmt with_update).1 → x.1 = repo_dir)
    ∧ (∀ x : FPath, Ev.deleteFile x ∈
      (generate_repo env specs repo_dir fmt with_update).1 → x.1 = repo_dir)
    ∧ (∀ d : Str, Ev.mkdir d ∈
      (generate_repo env specs repo_dir fmt with_update).1 → d = repo_dir)
    ∧ (∀ q ∈ specs, q.1 ≠ repo_dir →
        Ev.createFile q ∉ (generate_repo env specs repo_dir fmt with_update).1
        ∧ Ev.deleteFile q ∉ (generate_repo env specs repo_dir fmt with_update).1)
    ∧ ∃ post0 : List Ev,
        (generate_repo env specs repo_dir fmt with_update).1 =
          (if env.pathExists repo_dir then [] else [Ev.mkdir repo_dir])
          ++ specs.flatMap (fun q => (runSpec env fmt repo_dir with_update q).1)
          ++ post0
        ∧ (∀ ev ∈ post0, (∃ x : FPath, ev = Ev.createFile x)
            ∨ (∃ x : FPath, ev = Ev.readFile x))
        ∧ (∀ q ∈ specs, ∃ a b : List Ev,
            (runSpec env fmt repo_dir with_update q).1 =
              a ++ [Ev.readFile (repo_dir, q.2), Ev.readFile (repo_dir, q.2),
                Ev.deleteFile (repo_dir, q.2)] ++ b
            ∧ (∀ ev ∈ b, ∃ x : FPath, ev = Ev.createFile x)
            ∧ Ev.deleteFile (repo_dir, q.2) ∉ a
            ∧ Ev.deleteFile (repo_dir, q.2) ∉ b) := by
  obtain ⟨results, hrs⟩ := runSpecs_ok env fmt repo_dir with_update specs hok
  have htr := generate_repo_ok_trace env specs repo_dir fmt with_update _ results hrs
  have hclass : ∀ ev ∈ (generate_repo env specs repo_dir fmt with_update).1,
      ev = Ev.mkdir repo_dir
      ∨ (∃ n, ev = Ev.createFile (repo_dir, n))
      ∨ (∃ x : FPath, ev = Ev.readFile x)
      ∨ (∃ q, q ∈ specs ∧ ev = Ev.deleteFile (repo_dir, q.2))
      ∨ (∃ c, ev = Ev.exec c) := by
    rw [htr]
    intro ev hmem
    rcases List.mem_append.mp hmem with h | h
    · rcases List.mem_append.mp h with h2 | h2
      · rcases List.mem_append.mp h2 with h3 | h3
        · exact Or.inl (mkdirPart_events _ repo_dir ev h3)
        · rcases List.mem_flatMap.mp h3 with ⟨q, hq, hev⟩
          rcases runSpec_events env fmt repo_dir with_update q ev hev with
            h4 | ⟨n, h4⟩ | ⟨n, h4⟩ | ⟨c, h4⟩ | h4
          · exact Or.inr (Or.inr (Or.inl ⟨q, h4⟩))
          · exact Or.inr (Or.inl ⟨n, h4⟩)
          · exact Or.inr (Or.inr (Or.inl ⟨(repo_dir, n), h4⟩))
          · exact Or.inr (Or.inr (Or.inr (Or.inr ⟨c, h4⟩)))
          · exact Or.inr (Or.inr (Or.inr (Or.inl ⟨q, hq, h4⟩)))
      · rcases hfl : includesLago fmt with _ | _
        · rw [hfl] at h2
          cases h2
        · rw [hfl] at h2
          simp only [if_pos] at h2
          rw [List.mem_singleton] at h2
          exact Or.inr (Or.inl ⟨str "repo.metadata", h2⟩)
    · rcases hfv : includesVirtBuilder fmt with _ | _
      · rw [hfv] at h
        cases h
      · rw [hfv] at h
        simp only [if_pos] at h
        rcases vb_phase_events env repo_dir _ specs ev h with ⟨x, h2⟩ | h2
        · exact Or.inr (Or.inr (Or.inl ⟨x, h2⟩))
        · exact Or.inr (Or.inl ⟨str "index", h2⟩)
  have hcreate : ∀ x : FPath, Ev.createFile x ∈
      (generate_repo env specs repo_dir fmt with_update).1 → x.1 = repo_dir := by
    intro x hmem
    rcases hclass _ hmem with h | ⟨n, h⟩ | ⟨y, h⟩ | ⟨q, _, h⟩ | ⟨c, h⟩
    · exact Ev.noConfusion h
    · injection h with h2
      rw [h2]
    · exact Ev.noConfusion h
    · exact Ev.noConfusion h
    · exact Ev.noConfusion h
  have hdelete : ∀ x : FPath, Ev.deleteFile x ∈
      (generate_repo env specs repo_dir fmt with_update).1 → x.1 = repo_dir := by
    intro x hmem
    rcases hclass _ hmem with h | ⟨n, h⟩ | ⟨y, h⟩ | ⟨q, _, h⟩ | ⟨c, h⟩
    · exact Ev.noConfusion h
    · exact Ev.noConfusion h
    · exact Ev.noConfusion h
    · injection h with h2
      rw [h2]
    · exact Ev.noConfusion h
  refine ⟨hcreate, hdelete, ?_, ?_, ?_⟩
  · intro d hmem
    rcases hclass _ hmem with h | ⟨n, h⟩ | ⟨y, h⟩ | ⟨q, _, h⟩ | ⟨c, h⟩
    · injection h with h2
    · exact Ev.noConfusion h
    · exact Ev.noConfusion h
    · exact Ev.noConfusion h
    · exact Ev.noConfusion h
  · intro q _ hqd
    constructor
    · intro hmem
      exact hqd (hcreate q hmem)
    · intro hmem
      exact hqd (hdelete q hmem)
  · refine ⟨(if includesLago fmt then [Ev.createFile (repo_dir, str "repo.metadata")]
        else [])
      ++ (if includesVirtBuilder fmt then
            (generate_virt_builder_repo_metadata env repo_dir specs
              (results.foldl (fun d r => insertAssoc d r.1 r.2) [])).1
          else []), ?_, ?_, ?_⟩
    · rw [htr, List.append_assoc, List.append_assoc]
    · intro ev hev
      rcases List.mem_append.mp hev with h | h
      · rcases hfl : includesLago fmt with _ | _
        · rw [hfl] at h
          cases h
        · rw [hfl] at h
          simp only [if_pos] at h
          rw [List.mem_singleton] at h
          exact Or.inl ⟨(repo_dir, str "repo.metadata"), h⟩
      · rcases hfv : includesVirtBuilder fmt with _ | _
        · rw [hfv] at h
          cases h
        · rw [hfv] at h
          simp only [if_pos] at h
          rcases vb_phase_events env repo_dir _ specs ev h with ⟨x, h2⟩ | h2
          · exact Or.inr ⟨x, h2⟩
          · exact Or.inl ⟨(repo_dir, str "index"), h2⟩
    · intro q hq
      obtain ⟨r, hr⟩ := hok q hq
      obtain ⟨sp, bs, hsp, hbase, h1, h2, h3, h4⟩ :=
        runSpec_ok_inversion env fmt repo_dir with_update q r hr
      have hq2 : sp.commands_file = q := by
        rw [from_spec_file_ok_shape _ _ _ _ hsp]
      have hshape := runSpec_ok_shape env fmt repo_dir with_update q sp bs hsp
        hbase h1 h2 h3 h4
      rw [hq2] at hshape
      refine ⟨[Ev.readFile q,
          Ev.exec (build_disk_image_command q (repo_dir, q.2) (str "123456")
            with_update bs),
          Ev.createFile (repo_dir, q.2),
          Ev.exec (sysprep_command (repo_dir, q.2)),
          Ev.exec (sparsify_command (repo_dir, q.2)),
          Ev.exec (xz_command (repo_dir, q.2)),
          Ev.createFile (repo_dir, q.2 ++ str ".xz")],
        (if includesLago fmt then
          [Ev.createFile (repo_dir, q.2 ++ str ".metadata"),
           Ev.createFile (repo_dir, q.2 ++ str ".hash")]
         else []), ?_, ?_, ?_, ?_⟩
      · rw [hshape]
        rfl
      · rcases includesLago fmt with _ | _ <;> simp
      · simp
      · rcases includesLago fmt with _ | _ <;> simp

/-- Environment in which every command succeeds. -/
def envC8 : Env where
  fileLines := fun _ => [str "#name=n", str "#base=f30", str "#distro=fc30"]
  fileSize := fun _ => 5
  sha1 := fun _ => str "h1"
  sha512 := fun _ => str "h5"
  mtime := fun _ => 0
  listDir := fun _ => []
  exitCode := fun _ => 0
  pathExists := fun _ => true
  now := ⟨2020, 1, 1, 0, 0, 0⟩

set_option maxRecDepth 100000 in
/-- Witness for C8: in a concrete successful run, the spec input file is
never created or deleted. -/
theorem C8_side_effects_confined_witness :
    Ev.createFile qA ∉
      (generate_repo envC8 [qA] (str "image-repo") RepoFormat.lago false).1 := by
  have h := C8_side_effects_confined envC8 RepoFormat.lago (str "image-repo")
    false [qA]
    (fun q hq => by
      rw [List.mem_singleton] at hq
      subst hq
      exact ⟨((str "image-repo", str "a.xz"), ⟨5, str "h1", str "h5"⟩), by decide⟩)
  exact (h.2.2.2.1 qA (by decide) (by decide)).1
